import Mathlib

/-!
# mstreamer: stage composition, workers, codec boundary and record model

A shallow embedding of the Go package `mstreamer`.

Conventions of the embedding

* A Go function value, interface value or slice that may be `nil` is an `Option`:
  `none` is `nil`.
* Code with effects runs in `Go σ`, a state-passing computation over a world state `σ`
  that either returns, panics (a Go run-time panic) or runs out of loop fuel.
  The state reached at a panic is kept.  User functions (inputs, filters, outputs,
  adapters, the feedback callback, the injected factories) are arbitrary `Go σ`
  computations, so "function `g` is not invoked" is the statement that the result and the
  final state are those reached without running `g`.
* `error` is `Option Error`; `errors.New msg` is `some msg`.
-/

namespace MStreamer

/-! ## Effects -/

/-- Outcome of running a piece of Go code: a normal return, a run-time panic, or no
return: the fuel given to an unbounded `for` loop is exhausted, or a call blocks for
ever (`timeout`). -/
inductive Res (α : Type) where
  | ret (a : α)
  | panic (msg : String)
  | timeout
  deriving Repr, DecidableEq

/-- Effectful Go code over the world state `σ`. -/
def Go (σ α : Type) : Type := σ → Res α × σ

/-- Normal return. -/
def Go.pure {σ α : Type} (a : α) : Go σ α := fun s => (Res.ret a, s)

/-- Sequencing: a panic or timeout of the first part ends the computation. -/
def Go.bind {σ α β : Type} (m : Go σ α) (k : α → Go σ β) : Go σ β := fun s =>
  match m s with
  | (Res.ret a, s1) => k a s1
  | (Res.panic e, s1) => (Res.panic e, s1)
  | (Res.timeout, s1) => (Res.timeout, s1)

instance {σ : Type} : Monad (Go σ) where
  pure := Go.pure
  bind := Go.bind

/-- A run-time panic. -/
def Go.panic {σ α : Type} (msg : String) : Go σ α := fun s => (Res.panic msg, s)

/-- Run `body` and then the deferred call `cleanup` (Go `defer`), which runs when `body`
returns and when it panics; the outcome of `body` is kept when the cleanup returns.  A
`body` that ran out of fuel has not finished, so the cleanup has not run. -/
def Go.defer {σ α β : Type} (cleanup : Go σ β) (body : Go σ α) : Go σ α := fun s =>
  match body s with
  | (Res.timeout, s1) => (Res.timeout, s1)
  | (r, s1) =>
    match cleanup s1 with
    | (Res.ret _, s2) => (r, s2)
    | (Res.panic e, s2) => (Res.panic e, s2)
    | (Res.timeout, s2) => (Res.timeout, s2)


/-- Message of the panic raised by calling a nil function value or a method of a nil
interface. -/
def nilDeref : String := "invalid memory address or nil pointer dereference"

/-! ## Record model (metrics.go) -/

/-- Dynamic value held in `Field.Data` (`interface{}`): the dynamic type together with the
value.  A `float64` is its IEEE-754 bit pattern; `other` stands for a value of any other
dynamic type. -/
inductive Value where
  | float64 (bits : Nat)
  | int64 (v : Int)
  | uint64 (v : Nat)
  | bool (b : Bool)
  | string (s : String)
  | nil
  | other (typeName : String)
  deriving Repr, DecidableEq

/-- Go `error` values: the sentinel `io.EOF`, an error made by `errors.New msg`, or one
made by `fmt.Errorf format args`. -/
inductive Error where
  | EOF
  | New (msg : String)
  | Errorf (format : String) (args : List Value)
  deriving Repr, DecidableEq

/-- `FieldType` is a byte. -/
abbrev FieldType := Nat

/-- Constant `TBool = 'b'`. -/
def TBool : FieldType := 98
/-- Constant `TInt = 'i'`. -/
def TInt : FieldType := 105
/-- Constant `TUint = 'u'`. -/
def TUint : FieldType := 117
/-- Constant `TFloat = 'f'`. -/
def TFloat : FieldType := 102
/-- Constant `TString = 's'`. -/
def TString : FieldType := 115
/-- Constant `TNil = 'n'`. -/
def TNil : FieldType := 110

/-- Tag is the indexed portion of data. -/
structure Tag where
  Name : String
  Data : String
  deriving Repr, DecidableEq

/-- Field is the non-indexed portion of a measure (`Typ` is the Go field `Type`). -/
structure Field where
  Name : String
  Typ : FieldType
  Data : Value
  deriving Repr, DecidableEq

/-- Measure is the single unit of data passed through systems. -/
structure Measure where
  Name : String
  Tags : List Tag
  Flds : List Field
  Time : Int
  deriving Repr, DecidableEq

/-- The zero Measure (`var m Measure`). -/
def Measure.zero : Measure := ⟨"", [], [], 0⟩

/-! ## Function types (metrics.go) -/

/-- An argument handed to a printf-style function (`...interface{}`). -/
inductive Arg where
  | error (e : Error)
  | measure (m : Measure)
  | string (s : String)
  | uint64 (n : Nat)
  | value (v : Value)
  deriving Repr, DecidableEq

/-- A non-nil Feedback: takes a format string and a list of arguments. -/
abbrev FeedbackFn (σ : Type) := String → List Arg → Go σ Unit

/-- Feedback callback; `none` is the nil function. -/
abbrev Feedback (σ : Type) := Option (FeedbackFn σ)

/-- A non-nil value of interface `MeasureReader`: `Read` takes the current content of the
pointed-to Measure and returns its new content and the error. -/
structure MeasureReaderI (σ : Type) where
  Read : Measure → Go σ (Measure × Option Error)

/-- Interface `MeasureReader`; `none` is the nil interface. -/
abbrev MeasureReader (σ : Type) := Option (MeasureReaderI σ)

/-- A non-nil value of interface `MeasureWriter`. -/
structure MeasureWriterI (σ : Type) where
  Write : Measure → Go σ (Option Error)

/-- Interface `MeasureWriter`; `none` is the nil interface. -/
abbrev MeasureWriter (σ : Type) := Option (MeasureWriterI σ)

/-- A non-nil Input. -/
abbrev InputFn (σ : Type) := Feedback σ → Go σ (MeasureReader σ × Option Error)
/-- Input takes a Feedback and returns a reader. -/
abbrev Input (σ : Type) := Option (InputFn σ)

/-- A non-nil Filter. -/
abbrev FilterFn (σ : Type) :=
  Feedback σ → MeasureReader σ → Go σ (MeasureReader σ × Option Error)
/-- Filter takes a Feedback and a Measure reader and returns another Measure reader. -/
abbrev Filter (σ : Type) := Option (FilterFn σ)

/-- A non-nil Output. -/
abbrev OutputFn (σ : Type) := Feedback σ → MeasureReader σ → Go σ (Option Error)
/-- Output takes a Feedback and a reader and outputs to whatever place. -/
abbrev Output (σ : Type) := Option (OutputFn σ)

/-- A non-nil Runnable. -/
abbrev RunnableFn (σ : Type) := Feedback σ → Go σ (Option Error)
/-- Runnable takes a Feedback function, runs its logic and returns an error if any. -/
abbrev Runnable (σ : Type) := Option (RunnableFn σ)

/-- A non-nil `io.Writer`. -/
structure IOWriterI (σ : Type) where
  Write : List Nat → Go σ (Nat × Option Error)

/-- Interface `io.Writer`; `none` is the nil interface. -/
abbrev IOWriter (σ : Type) := Option (IOWriterI σ)

/-- A non-nil `io.Reader`: `Read` is given the length of the buffer. -/
structure IOReaderI (σ : Type) where
  Read : Nat → Go σ (List Nat × Option Error)

/-- Interface `io.Reader`; `none` is the nil interface. -/
abbrev IOReader (σ : Type) := Option (IOReaderI σ)

/-- A non-nil `io.ReadCloser`. -/
structure ReadCloserI (σ : Type) where
  Read : Nat → Go σ (List Nat × Option Error)
  Close : Go σ (Option Error)

/-- Interface `io.ReadCloser`; `none` is the nil interface. -/
abbrev ReadCloser (σ : Type) := Option (ReadCloserI σ)

/-- The write end `*io.PipeWriter` of a pipe. -/
structure PipeWriterI (σ : Type) where
  Write : List Nat → Go σ (Nat × Option Error)
  Close : Go σ (Option Error)

/-- The read end `*io.PipeReader` of a pipe. -/
structure PipeReaderI (σ : Type) where
  Read : Nat → Go σ (List Nat × Option Error)
  Close : Go σ (Option Error)

/-- A pipe writer used as an `io.Writer`. -/
def PipeWriterI.toWriter {σ : Type} (pw : PipeWriterI σ) : IOWriter σ := some ⟨pw.Write⟩

/-- A pipe reader used as an `io.Reader`. -/
def PipeReaderI.toReader {σ : Type} (pr : PipeReaderI σ) : IOReader σ := some ⟨pr.Read⟩

/-- A pipe reader used as an `io.ReadCloser`. -/
def PipeReaderI.toReadCloser {σ : Type} (pr : PipeReaderI σ) : ReadCloser σ :=
  some ⟨pr.Read, pr.Close⟩

/-- A non-nil pipe factory `func() (*io.PipeReader, *io.PipeWriter)`; the two ends it
returns are taken to be non-nil, as those of `io.Pipe` are. -/
abbrev IOPipeFn (σ : Type) := Go σ (PipeReaderI σ × PipeWriterI σ)

/-- A non-nil Measure-writer factory `func(io.Writer) MeasureWriter`. -/
abbrev MWriterFn (σ : Type) := IOWriter σ → Go σ (MeasureWriter σ)

/-- A non-nil Measure-reader factory `func(io.Reader) MeasureReader`. -/
abbrev MReaderFn (σ : Type) := IOReader σ → Go σ (MeasureReader σ)

/-- A `*gob.Encoder`, used at type Measure. -/
structure GobEncoder (σ : Type) where
  Encode : Measure → Go σ (Option Error)

/-- A `*gob.Decoder`, used at type Measure. -/
structure GobDecoder (σ : Type) where
  Decode : Measure → Go σ (Measure × Option Error)

/-- A `sync.WaitGroup`. -/
structure WaitGroup (σ : Type) where
  Add : Int → Go σ Unit
  Done : Go σ Unit
  Wait : Go σ Unit

/-- The parts of the Go run time and standard library the package calls: the `go`
statement (start a worker running `body`), `log.Printf`, a fresh `sync.WaitGroup`,
`io.Pipe`, the `gob` encoder and decoder, and the bound on the number of iterations an
unbounded `for` loop is followed for. -/
structure Runtime (σ : Type) where
  go : Go σ Unit → σ → σ
  logPrintf : String → List Arg → σ → σ
  newWaitGroup : Go σ (WaitGroup σ)
  Pipe : IOPipeFn σ
  gobNewEncoder : IOWriter σ → Go σ (GobEncoder σ)
  gobNewDecoder : IOReader σ → Go σ (GobDecoder σ)
  fuel : Nat

/-- The statement `go body()`. -/
def Runtime.goStmt {σ : Type} (rt : Runtime σ) (body : Go σ Unit) : Go σ Unit :=
  fun s => (Res.ret (), rt.go body s)

/-- The call `log.Printf(format, args...)`. -/
def Runtime.log {σ : Type} (rt : Runtime σ) (format : String) (args : List Arg) :
    Go σ Unit :=
  fun s => (Res.ret (), rt.logPrintf format args s)

/-- Call of the feedback function value `f(format, args...)`; calling nil panics. -/
def callFeedback {σ : Type} (f : Feedback σ) (format : String) (args : List Arg) :
    Go σ Unit :=
  match f with
  | none => Go.panic nilDeref
  | some g => g format args

/-- Method call `r.Read(&m)` with `m` the zero Measure; a nil interface panics. -/
def readMeasure {σ : Type} (r : MeasureReader σ) : Go σ (Measure × Option Error) :=
  match r with
  | none => Go.panic nilDeref
  | some ri => ri.Read Measure.zero

/-- Method call `mw.Write(m)`; a nil interface panics. -/
def writeMeasure {σ : Type} (mw : MeasureWriter σ) (m : Measure) : Go σ (Option Error) :=
  match mw with
  | none => Go.panic nilDeref
  | some wi => wi.Write m

/-- Source takes a Feedback and returns the data in an `io.ReadCloser`. -/
abbrev SourceFn (σ : Type) := Feedback σ → Go σ (ReadCloser σ × Option Error)
/-- Source function value; `none` is nil. -/
abbrev Source (σ : Type) := Option (SourceFn σ)

/-- Encoder takes a Feedback and a stream reader and returns a Measure reader. -/
abbrev EncoderFn (σ : Type) :=
  Feedback σ → ReadCloser σ → Go σ (MeasureReader σ × Option Error)
/-- Encoder function value; `none` is nil. -/
abbrev Encoder (σ : Type) := Option (EncoderFn σ)

/-- Decoder takes a Feedback and a Measure reader and returns a generic reader. -/
abbrev DecoderFn (σ : Type) :=
  Feedback σ → MeasureReader σ → Go σ (ReadCloser σ × Option Error)
/-- Decoder function value; `none` is nil. -/
abbrev Decoder (σ : Type) := Option (DecoderFn σ)

/-- Sinker takes a Feedback and a generic reader and returns an error if any. -/
abbrev SinkerFn (σ : Type) := Feedback σ → ReadCloser σ → Go σ (Option Error)
/-- Sinker function value; `none` is nil. -/
abbrev Sinker (σ : Type) := Option (SinkerFn σ)

/-! ## Pipeline assembly (pipelines.go) -/

/-- The function literal returned by `NewIOPipeline` for non-nil `i`, `f`, `o`. -/
def ioPipelineRun {σ : Type} (i : InputFn σ) (f : FilterFn σ) (o : OutputFn σ) :
    RunnableFn σ := fun fb =>
  match fb with
  | none => pure (some (Error.New "feedback function is nil"))
  | some _ => do
    let (ri, err) ← i fb
    match err with
    | some e => pure (some e)
    | none => do
      let (rf, err) ← f fb ri
      match err with
      | some e => pure (some e)
      | none => o fb rf

/-- NewIOPipeline takes one component of each simple type. -/
def NewIOPipeline {σ : Type} (i : Input σ) (f : Filter σ) (o : Output σ) :
    Runnable σ × Option Error :=
  match i with
  | none => (none, some (Error.New "input function is nil"))
  | some i =>
    match f with
    | none => (none, some (Error.New "filter function is nil"))
    | some f =>
      match o with
      | none => (none, some (Error.New "output function is nil"))
      | some o => (some (ioPipelineRun i f o), none)

/-! ## Sources (sources.go) -/

/-- SourceAdapter `func(Feedback, io.Writer)`. -/
abbrev SourceAdapterFn (σ : Type) := Feedback σ → IOWriter σ → Go σ Unit

/-- The worker started by a source: `defer pw.Close(); adapter(f, pw)`. -/
def sourceWorker {σ : Type} (adapter : SourceAdapterFn σ) (f : Feedback σ)
    (pw : PipeWriterI σ) : Go σ Unit :=
  Go.defer pw.Close (adapter f pw.toWriter)

/-- The function literal returned by `newSource`. -/
def sourceRun {σ : Type} (rt : Runtime σ) (adapter : SourceAdapterFn σ)
    (ioPipe : IOPipeFn σ) : SourceFn σ := fun f =>
  match f with
  | none => pure (none, some (Error.New "feedback funcion is nil"))
  | some _ => do
    let (pr, pw) ← ioPipe
    rt.goStmt (sourceWorker adapter f pw)
    pure (pr.toReadCloser, none)

/-- Constructor `newSource(adapter, ioPipe)`. -/
def newSource {σ : Type} (rt : Runtime σ) (adapter : Option (SourceAdapterFn σ))
    (ioPipe : Option (IOPipeFn σ)) : Source σ × Option Error :=
  match adapter with
  | none => (none, some (Error.New "adapter is nil"))
  | some adapter =>
    match ioPipe with
    | none => (none, some (Error.New "ioPipe is nil"))
    | some ioPipe => (some (sourceRun rt adapter ioPipe), none)

/-! ## Encoders (encoders.go) -/

/-- EncoderAdapter `func(Feedback, io.Reader, MeasureWriter)`. -/
abbrev EncoderAdapterFn (σ : Type) := Feedback σ → IOReader σ → MeasureWriter σ → Go σ Unit

/-- The worker started by an encoder:
`defer r.Close(); defer pw.Close(); adapter(f, r, mw)` (deferred calls run last-in
first-out). -/
def encoderWorker {σ : Type} (adapter : EncoderAdapterFn σ) (f : Feedback σ)
    (r : ReadCloserI σ) (pw : PipeWriterI σ) (mw : MeasureWriter σ) : Go σ Unit :=
  Go.defer r.Close (Go.defer pw.Close (adapter f (some ⟨r.Read⟩) mw))

/-- The function literal returned by `newEncoder`. -/
def encoderRun {σ : Type} (rt : Runtime σ) (adapter : EncoderAdapterFn σ)
    (ioPipe : IOPipeFn σ) (mWriter : MWriterFn σ) (mReader : MReaderFn σ) :
    EncoderFn σ := fun f r =>
  match f with
  | none => pure (none, some (Error.New "feedback funcion is nil"))
  | some _ =>
    match r with
    | none => pure (none, some (Error.New "reader stream is nil"))
    | some ri => do
      let (pr, pw) ← ioPipe
      let mr ← mReader pr.toReader
      let mw ← mWriter pw.toWriter
      rt.goStmt (encoderWorker adapter f ri pw mw)
      pure (mr, none)

/-- Constructor `newEncoder(adapter, ioPipe, mWriter, mReader)`. -/
def newEncoder {σ : Type} (rt : Runtime σ) (adapter : Option (EncoderAdapterFn σ))
    (ioPipe : Option (IOPipeFn σ)) (mWriter : Option (MWriterFn σ))
    (mReader : Option (MReaderFn σ)) : Encoder σ × Option Error :=
  match adapter with
  | none => (none, some (Error.New "adapter function is nil"))
  | some adapter =>
    match ioPipe with
    | none => (none, some (Error.New "iopipe is nil"))
    | some ioPipe =>
      match mWriter with
      | none => (none, some (Error.New "mWriter is nil"))
      | some mWriter =>
        match mReader with
        | none => (none, some (Error.New "mReader is nil"))
        | some mReader => (some (encoderRun rt adapter ioPipe mWriter mReader), none)

/-! ## Filters (filters.go) -/

/-- FilterAdapter `func(Feedback, *Measure, MeasureWriter)`; the pointed-to Measure is
a variable local to one loop iteration, so it is passed by value. -/
abbrev FilterAdapterFn (σ : Type) := Feedback σ → Measure → MeasureWriter σ → Go σ Unit

/-- FinalizeAdapter `func(Feedback, MeasureWriter)`. -/
abbrev FinalizeAdapterFn (σ : Type) := Feedback σ → MeasureWriter σ → Go σ Unit

/-- The `for` loop of the filter worker, followed for at most `fuel` iterations. -/
def filterLoop {σ : Type} (adapter : FilterAdapterFn σ)
    (finalizer : Option (FinalizeAdapterFn σ)) (f : Feedback σ) (r : MeasureReader σ)
    (mw : MeasureWriter σ) : Nat → Go σ Unit
  | 0 => fun s => (Res.timeout, s)
  | fuel + 1 => do
    let (m, err) ← readMeasure r
    match err with
    | some e =>
      if e = Error.EOF then
        match finalizer with
        | some fin => fin f mw
        | none => pure ()
      else do
        callFeedback f "applierFilter error on read: %v" [Arg.error e]
        filterLoop adapter finalizer f r mw fuel
    | none => do
      adapter f m mw
      filterLoop adapter finalizer f r mw fuel

/-- The worker started by a filter: `defer pw.Close()` around the loop. -/
def filterWorker {σ : Type} (fuel : Nat) (adapter : FilterAdapterFn σ)
    (finalizer : Option (FinalizeAdapterFn σ)) (f : Feedback σ) (r : MeasureReader σ)
    (pw : PipeWriterI σ) (mw : MeasureWriter σ) : Go σ Unit :=
  Go.defer pw.Close (filterLoop adapter finalizer f r mw fuel)

/-- The function literal returned by `newFilter`. -/
def filterRun {σ : Type} (rt : Runtime σ) (adapter : FilterAdapterFn σ)
    (finalizer : Option (FinalizeAdapterFn σ)) (ioPipe : IOPipeFn σ)
    (mWriter : MWriterFn σ) (mReader : MReaderFn σ) : FilterFn σ := fun f r =>
  match f with
  | none => pure (none, some (Error.New "feedback funcion is nil"))
  | some _ =>
    match r with
    | none => pure (none, some (Error.New "reader stream is nil"))
    | some _ => do
      let (pr, pw) ← ioPipe
      let mr ← mReader pr.toReader
      let mw ← mWriter pw.toWriter
      rt.goStmt (filterWorker rt.fuel adapter finalizer f r pw mw)
      pure (mr, none)

/-- Constructor `newFilter(adapter, finalizer, ioPipe, mWriter, mReader)`. -/
def newFilter {σ : Type} (rt : Runtime σ) (adapter : Option (FilterAdapterFn σ))
    (finalizer : Option (FinalizeAdapterFn σ)) (ioPipe : Option (IOPipeFn σ))
    (mWriter : Option (MWriterFn σ)) (mReader : Option (MReaderFn σ)) :
    Filter σ × Option Error :=
  match adapter with
  | none => (none, some (Error.New "adapter function is nil"))
  | some adapter =>
    match ioPipe with
    | none => (none, some (Error.New "iopipe is nil"))
    | some ioPipe =>
      match mWriter with
      | none => (none, some (Error.New "mWriter is nil"))
      | some mWriter =>
        match mReader with
        | none => (none, some (Error.New "mReader is nil"))
        | some mReader =>
          (some (filterRun rt adapter finalizer ioPipe mWriter mReader), none)

/-- The function literal returned by `newComposedFilter`:
`for _, flt := range flts { fr, err := flt(f, r); if err != nil { return nil, err }; r = fr }`
followed by `return r, nil`. -/
def composedFilterRun {σ : Type} : List (Filter σ) → FilterFn σ
  | [], _, r => pure (r, none)
  | flt :: rest, f, r =>
    match flt with
    | none => Go.panic nilDeref
    | some g => do
      let (fr, err) ← g f r
      match err with
      | some e => pure (none, some e)
      | none => composedFilterRun rest f fr

/-- The condition `flts == nil || flts[0] == nil`; indexing an empty non-nil slice
panics. -/
def noFilters {σ : Type} (flts : Option (List (Filter σ))) : Go σ Bool :=
  match flts with
  | none => pure true
  | some [] => Go.panic "index out of range [0] with length 0"
  | some (flt :: _) => pure flt.isNone

/-- Function `newComposedFilter(flts ...Filter)`; `none` is the nil slice. -/
def newComposedFilter {σ : Type} (rt : Runtime σ) (flts : Option (List (Filter σ))) :
    Go σ (Filter σ × Option Error) := do
  let c ← noFilters flts
  if c then rt.log "no filters" [] else pure ()
  pure (some (composedFilterRun (flts.getD [])), none)

/-- NewComposedFilter takes a list of Filters and returns their composition. -/
def NewComposedFilter {σ : Type} (rt : Runtime σ) (flts : Option (List (Filter σ))) :
    Go σ (Filter σ × Option Error) :=
  newComposedFilter rt flts

/-- Compose a chain with `NewComposedFilter` and invoke the returned Filter once. -/
def composeAndInvoke {σ : Type} (rt : Runtime σ) (flts : Option (List (Filter σ)))
    (fb : Feedback σ) (r : MeasureReader σ) : Go σ (MeasureReader σ × Option Error) := do
  let (flt, _) ← NewComposedFilter rt flts
  match flt with
  | none => Go.panic nilDeref
  | some g => g fb r

/-- Specification of a successful left-to-right threading: starting with reader `r` in
state `s`, every filter of the list in turn is called on the reader returned by the one
before it and returns without error; `r2`, `s2` are the reader returned by the last
filter and the state it leaves. -/
inductive Threaded {σ : Type} (fb : Feedback σ) :
    List (FilterFn σ) → MeasureReader σ → σ → MeasureReader σ → σ → Prop where
  | nil (r : MeasureReader σ) (s : σ) : Threaded fb [] r s r s
  | cons (g : FilterFn σ) (rest : List (FilterFn σ)) (r r1 r2 : MeasureReader σ)
      (s s1 s2 : σ) :
      g fb r s = (Res.ret (r1, none), s1) → Threaded fb rest r1 s1 r2 s2 →
      Threaded fb (g :: rest) r s r2 s2

/-! ## Decoders (decoders.go) -/

/-- DecoderAdapter `func(Feedback, MeasureReader, io.Writer)`. -/
abbrev DecoderAdapterFn (σ : Type) := Feedback σ → MeasureReader σ → IOWriter σ → Go σ Unit

/-- The worker started by a decoder: `defer pw.Close(); adapter(f, r, pw)`. -/
def decoderWorker {σ : Type} (adapter : DecoderAdapterFn σ) (f : Feedback σ)
    (r : MeasureReader σ) (pw : PipeWriterI σ) : Go σ Unit :=
  Go.defer pw.Close (adapter f r pw.toWriter)

/-- The function literal returned by `newDecoder`. -/
def decoderRun {σ : Type} (rt : Runtime σ) (adapter : DecoderAdapterFn σ)
    (ioPipe : IOPipeFn σ) : DecoderFn σ := fun f r =>
  match f with
  | none => pure (none, some (Error.New "feedback funcion is nil"))
  | some _ =>
    match r with
    | none => pure (none, some (Error.New "reader stream is nil"))
    | some _ => do
      let (pr, pw) ← ioPipe
      rt.goStmt (decoderWorker adapter f r pw)
      pure (pr.toReadCloser, none)

/-- Constructor `newDecoder(adapter, ioPipe)`. -/
def newDecoder {σ : Type} (rt : Runtime σ) (adapter : Option (DecoderAdapterFn σ))
    (ioPipe : Option (IOPipeFn σ)) : Decoder σ × Option Error :=
  match adapter with
  | none => (none, some (Error.New "adapter function is nil"))
  | some adapter =>
    match ioPipe with
    | none => (none, some (Error.New "iopipe is nil"))
    | some ioPipe => (some (decoderRun rt adapter ioPipe), none)

/-! ## Sinkers (sinkers.go) -/

/-- SinkerAdapter `func(Feedback, io.ReadCloser) error`. -/
abbrev SinkerAdapterFn (σ : Type) := Feedback σ → ReadCloser σ → Go σ (Option Error)

/-- The function literal returned by `newSinker`. -/
def sinkerRun {σ : Type} (adapter : SinkerAdapterFn σ) : SinkerFn σ := fun f r =>
  match f with
  | none => pure (some (Error.New "feedback funcion is nil"))
  | some _ =>
    match r with
    | none => pure (some (Error.New "reader stream is nil"))
    | some _ => adapter f r

/-- Constructor `newSinker(adapter)`. -/
def newSinker {σ : Type} (adapter : Option (SinkerAdapterFn σ)) :
    Sinker σ × Option Error :=
  match adapter with
  | none => (none, some (Error.New "adapter is nil"))
  | some adapter => (some (sinkerRun adapter), none)

/-! ## Typed codec boundary (serdes.go) -/

/-- NewWriter sends measures over an `io.Writer`: `&encoder{gob.NewEncoder(w)}`, whose
`Write(d)` is `e.encoder.Encode(d)`. -/
def NewWriter {σ : Type} (rt : Runtime σ) : MWriterFn σ := fun w => do
  let enc ← rt.gobNewEncoder w
  pure (some ⟨fun d => enc.Encode d⟩)

/-- NewReader reads measures from an `io.Reader`: `&decoder{gob.NewDecoder(r)}`, whose
`Read(d)` is `e.decoder.Decode(d)`. -/
def NewReader {σ : Type} (rt : Runtime σ) : MReaderFn σ := fun r => do
  let dec ← rt.gobNewDecoder r
  pure (some ⟨fun d => dec.Decode d⟩)

/-! ## Outputs (outputs.go) -/

/-- The worker started for one output of a merged output:
`defer wg.Done(); err := o(f, mr); if err != nil { f("sink fail %v", err) }`. -/
def mergedOutputWorker {σ : Type} (wg : WaitGroup σ) (f : Feedback σ) (o : Output σ)
    (mr : MeasureReader σ) : Go σ Unit :=
  Go.defer wg.Done
    (match o with
     | none => Go.panic nilDeref
     | some g => do
       let err ← g f mr
       match err with
       | some e => callFeedback f "sink fail %v" [Arg.error e]
       | none => pure ())

/-- The loop `for _, out := range outputs` of a merged output: one pipe and one worker
per output; returns the Measure writers and the pipe writers in order. -/
def mergedOutputStart {σ : Type} (rt : Runtime σ) (ioPipe : IOPipeFn σ)
    (mWriter : MWriterFn σ) (mReader : MReaderFn σ) (wg : WaitGroup σ) (f : Feedback σ) :
    List (Output σ) → List (MeasureWriter σ) → List (PipeWriterI σ) →
      Go σ (List (MeasureWriter σ) × List (PipeWriterI σ))
  | [], mws, pws => pure (mws, pws)
  | out :: rest, mws, pws => do
    let (pr, pw) ← ioPipe
    let mr ← mReader pr.toReader
    let mw ← mWriter pw.toWriter
    rt.goStmt (mergedOutputWorker wg f out mr)
    wg.Add 1
    mergedOutputStart rt ioPipe mWriter mReader wg f rest (mws ++ [mw]) (pws ++ [pw])

/-- The loop `for _, mw := range mws` that pushes one Measure to every output. -/
def mergedOutputPush {σ : Type} (f : Feedback σ) (m : Measure) :
    List (MeasureWriter σ) → Go σ Unit
  | [] => pure ()
  | mw :: rest => do
    let err ← writeMeasure mw m
    match err with
    | some e => callFeedback f "fail pushing metric %v" [Arg.error e]
    | none => pure ()
    mergedOutputPush f m rest

/-- The read loop of a merged output, followed for at most `fuel` iterations. -/
def mergedOutputLoop {σ : Type} (f : Feedback σ) (r : MeasureReader σ)
    (mws : List (MeasureWriter σ)) : Nat → Go σ Unit
  | 0 => fun s => (Res.timeout, s)
  | fuel + 1 => do
    let (m, err) ← readMeasure r
    match err with
    | some e =>
      if e = Error.EOF then pure ()
      else do
        callFeedback f "error reading message %v" [Arg.measure m]
        mergedOutputLoop f r mws fuel
    | none => do
      mergedOutputPush f m mws
      mergedOutputLoop f r mws fuel

/-- The loop `for _, pw := range pws { pw.Close() }`. -/
def closeAll {σ : Type} : List (PipeWriterI σ) → Go σ Unit
  | [] => pure ()
  | pw :: rest => do
    let _ ← pw.Close
    closeAll rest

/-- The function literal returned by `newMergedOutput`. -/
def mergedOutputRun {σ : Type} (rt : Runtime σ) (ioPipe : IOPipeFn σ)
    (mWriter : MWriterFn σ) (mReader : MReaderFn σ) (outputs : List (Output σ)) :
    OutputFn σ := fun f r => do
  let wg ← rt.newWaitGroup
  let (mws, pws) ← mergedOutputStart rt ioPipe mWriter mReader wg f outputs [] []
  mergedOutputLoop f r mws rt.fuel
  closeAll pws
  wg.Wait
  pure none

/-- Function `newMergedOutput(ioPipe, mWriter, mReader, outputs...)`. -/
def newMergedOutput {σ : Type} (rt : Runtime σ) (ioPipe : Option (IOPipeFn σ))
    (mWriter : Option (MWriterFn σ)) (mReader : Option (MReaderFn σ))
    (outputs : Option (List (Output σ))) : Output σ × Option Error :=
  match ioPipe with
  | none => (none, some (Error.New "iopipe function is nil"))
  | some ioPipe =>
    match mWriter with
    | none => (none, some (Error.New "mWriter is nil"))
    | some mWriter =>
      match mReader with
      | none => (none, some (Error.New "mReader is nil"))
      | some mReader =>
        (some (mergedOutputRun rt ioPipe mWriter mReader (outputs.getD [])), none)

/-- NewMergedOutput takes a list of outputs and returns a single output function. -/
def NewMergedOutput {σ : Type} (rt : Runtime σ) (outputs : Option (List (Output σ))) :
    Output σ × Option Error :=
  match outputs with
  | none => (none, some (Error.New "Merge outputs with an empty list does nothing"))
  | some _ =>
    newMergedOutput rt (some rt.Pipe) (some (NewWriter rt)) (some (NewReader rt)) outputs

/-! ## Field comparison (metrics.go) -/

/-- Bytes of the UTF-8 encoding of one character. -/
def utf8EncodeChar (c : Char) : List Nat :=
  let v := c.toNat
  if v ≤ 0x7f then [v]
  else if v ≤ 0x7ff then [0xc0 + v / 64, 0x80 + v % 64]
  else if v ≤ 0xffff then [0xe0 + v / 4096, 0x80 + v / 64 % 64, 0x80 + v % 64]
  else [0xf0 + v / 262144, 0x80 + v / 4096 % 64, 0x80 + v / 64 % 64, 0x80 + v % 64]

/-- The bytes of a Go string (its UTF-8 encoding). -/
def stringBytes (s : String) : List Nat :=
  s.data.flatMap utf8EncodeChar

/-- Three-way lexicographic comparison of byte sequences. -/
def bytesCompare : List Nat → List Nat → Int
  | [], [] => 0
  | [], _ :: _ => -1
  | _ :: _, [] => 1
  | x :: xs, y :: ys =>
    if x < y then -1 else if y < x then 1 else bytesCompare xs ys

/-- Library function `strings.Compare(a, b)`: 0 if a == b, -1 if a < b, +1 if a > b, the
order being the lexicographic order of the bytes. -/
def stringsCompare (a b : String) : Int :=
  bytesCompare (stringBytes a) (stringBytes b)

/-- Whether the IEEE-754 binary64 bit pattern is a NaN. -/
def float64IsNaN (bits : Nat) : Bool :=
  decide ((bits / 2 ^ 52) % 2 ^ 11 = 2047 ∧ bits % 2 ^ 52 ≠ 0)

/-- Order key of a binary64 bit pattern that is not a NaN: sign and magnitude read as an
integer (both zeros get key 0). -/
def float64Key (bits : Nat) : Int :=
  if bits % 2 ^ 64 < 2 ^ 63 then ((bits % 2 ^ 64 : Nat) : Int)
  else -((bits % 2 ^ 64 - 2 ^ 63 : Nat) : Int)

/-- The comparison `a < b` of two `float64`; false when either is a NaN. -/
def float64Lt (a b : Nat) : Bool :=
  !float64IsNaN a && !float64IsNaN b && decide (float64Key a < float64Key b)

/-- Message of the panic raised by a failed type assertion `x.(T)`. -/
def conversionPanic : String := "interface conversion: interface {} is not of the asserted type"

/-- Compare returns -1 to less, 0 to equal and +1 to more, or an error if not
comparable. -/
def Field.Compare (f o : Field) : Res (Int × Option Error) :=
  if f.Typ ≠ o.Typ then
    Res.ret (0, some (Error.New "cant compare fields of different types"))
  else if f.Typ = TFloat then
    match f.Data, o.Data with
    | Value.float64 a, Value.float64 b =>
      if float64Lt a b then Res.ret (-1, none)
      else if float64Lt b a then Res.ret (1, none)
      else Res.ret (0, none)
    | _, _ => Res.panic conversionPanic
  else if f.Typ = TString then
    match f.Data, o.Data with
    | Value.string a, Value.string b => Res.ret (stringsCompare a b, none)
    | _, _ => Res.panic conversionPanic
  else if f.Typ = TUint then
    match f.Data, o.Data with
    | Value.uint64 a, Value.uint64 b =>
      if a < b then Res.ret (-1, none)
      else if a > b then Res.ret (1, none)
      else Res.ret (0, none)
    | _, _ => Res.panic conversionPanic
  else if f.Typ = TInt then
    match f.Data, o.Data with
    | Value.int64 a, Value.int64 b =>
      if a < b then Res.ret (-1, none)
      else if a > b then Res.ret (1, none)
      else Res.ret (0, none)
    | _, _ => Res.panic conversionPanic
  else if f.Typ = TBool then
    match f.Data, o.Data with
    | Value.bool a, Value.bool b =>
      if a = b then Res.ret (0, none)
      else if !a then Res.ret (-1, none)
      else Res.ret (1, none)
    | _, _ => Res.panic conversionPanic
  else if f.Typ = TNil then
    Res.ret (0, some (Error.New "Cant compare nil values"))
  else
    Res.ret (0, some (Error.Errorf "Could not evaluate expression %v < %v" [f.Data, o.Data]))

/-- Whether the field has type `TInt`, `TUint` or `TString` and data of the matching
dynamic type (`int64`, `uint64`, `string`). -/
def Field.dataMatches (f : Field) : Bool :=
  match f.Data with
  | Value.int64 _ => f.Typ == TInt
  | Value.uint64 _ => f.Typ == TUint
  | Value.string _ => f.Typ == TString
  | _ => false

/-! ## A recording run time

World state for evaluating the code on concrete inputs: the list of the effects performed
so far, oldest first. -/

/-- One recorded effect. -/
inductive Event where
  | go
  | log (format : String) (args : List Arg)
  | feedback (format : String) (args : List Arg)
  | pipe
  | pipeClose
  | wgAdd (n : Int)
  | wgDone
  | wgWait
  | read
  | write (m : Measure)
  | call (name : String)
  | adapter (m : Measure)
  | finalizer
  | send (m : Measure)
  | chanClose
  deriving Repr, DecidableEq

/-- The effects performed so far. -/
abbrev Trace := List Event

/-- Record one effect. -/
def emit (e : Event) : Go Trace Unit := fun t => (Res.ret (), t ++ [e])

/-- A pipe whose creation and closing are recorded. -/
def tracePipe : Go Trace (PipeReaderI Trace × PipeWriterI Trace) := do
  emit Event.pipe
  pure (⟨fun _ => pure ([], some Error.EOF), do emit Event.pipeClose; pure none⟩,
        ⟨fun bs => pure (bs.length, none), do emit Event.pipeClose; pure none⟩)

/-- Run time that records each `go` statement (the worker body is not run), each
`log.Printf`, each wait-group operation, each pipe and each encoded Measure. -/
def traceRuntime : Runtime Trace where
  go := fun _ t => t ++ [Event.go]
  logPrintf := fun format args t => t ++ [Event.log format args]
  newWaitGroup := pure ⟨fun n => emit (Event.wgAdd n), emit Event.wgDone, emit Event.wgWait⟩
  Pipe := tracePipe
  gobNewEncoder := fun _ => pure ⟨fun m => do emit (Event.write m); pure none⟩
  gobNewDecoder := fun _ => pure ⟨fun m => do emit Event.read; pure (m, some Error.EOF)⟩
  fuel := 8

/-- A feedback callback that records each call. -/
def traceFeedback : Feedback Trace :=
  some (fun format args => emit (Event.feedback format args))

/-- A Measure reader that records each read under `name` and is at end-of-stream. -/
def traceReader (name : String) : MeasureReader Trace :=
  some ⟨fun m => do emit (Event.call name); pure (m, some Error.EOF)⟩

/-- An Input that records its call and returns the given reader and error. -/
def traceInput (name : String) (r : MeasureReader Trace) (err : Option Error) :
    InputFn Trace := fun _ => do
  emit (Event.call name)
  pure (r, err)

/-- A Filter that records its call and returns the given reader and error. -/
def traceFilter (name : String) (r : MeasureReader Trace) (err : Option Error) :
    FilterFn Trace := fun _ _ => do
  emit (Event.call name)
  pure (r, err)

/-- An Output that records its call and returns the given error. -/
def traceOutput (name : String) (err : Option Error) : OutputFn Trace := fun _ _ => do
  emit (Event.call name)
  pure err

/-- Number of calls of the feedback callback recorded in a trace. -/
def feedbackCalls : Trace → Nat
  | [] => 0
  | Event.feedback _ _ :: rest => feedbackCalls rest + 1
  | _ :: rest => feedbackCalls rest

/-! ## Parsing fields (metrics.go) -/

/-- The functions of package `strconv` that `ParseValue` calls, with the base and bit size
it passes; they are library code and enter as parameters.  `none` is a returned error
(the value returned alongside an error is discarded by `ParseValue`).  A `float64` is its
bit pattern. -/
structure Strconv where
  ParseFloat : String → Option Nat
  ParseUint : String → Option Nat
  ParseInt : String → Option Int
  ParseBool : String → Option Bool

/-- Bit pattern of the value returned by `math.NaN()`. -/
def nanBits : Nat := 0x7FF8000000000001

/-- ParseType tries to convert string into types. -/
def ParseType (str : String) : FieldType :=
  if str = "string" ∨ str = "s" ∨ str = "text" then TString
  else if str = "number" ∨ str = "int" ∨ str = "float" ∨ str = "u" ∨ str = "i" ∨ str = "f"
  then TFloat
  else if str = "b" ∨ str = "boolean" ∨ str = "bool" then TBool
  else TString

/-- ParseValue parse a value from a FieldType. -/
def ParseValue (sc : Strconv) (t : FieldType) (value : String) : Value :=
  if t = TFloat then
    match sc.ParseFloat value with
    | some v => Value.float64 v
    | none => Value.float64 nanBits
  else if t = TUint then
    match sc.ParseUint value with
    | some v => Value.uint64 v
    | none => Value.uint64 0
  else if t = TInt then
    match sc.ParseInt value with
    | some v => Value.int64 v
    | none => Value.int64 0
  else if t = TBool then
    match sc.ParseBool value with
    | some v => Value.bool v
    | none => Value.bool false
  else if t = TString then Value.string value
  else if t = TNil then Value.nil
  else Value.string value

/-- ParseField parse a field from string. -/
def ParseField (sc : Strconv) (name kind value : String) : Field :=
  let t := ParseType kind
  let v := ParseValue sc t value
  { Name := name, Typ := t, Data := v }

/-- Value of a string of decimal digits; `none` when the string is empty or holds another
character. -/
def decimalValue (s : String) : Option Nat :=
  if s.data = [] ∨ ¬ s.data.all Char.isDigit then none
  else some (s.data.foldl (fun n c => 10 * n + (c.toNat - 48)) 0)

/-- Bit pattern of the `float64` equal to the natural number `n`, for `n < 2 ^ 53`. -/
def float64OfNat (n : Nat) : Nat :=
  if n = 0 then 0
  else (Nat.log2 n + 1023) * 2 ^ 52 + (n * 2 ^ (52 - Nat.log2 n) - 2 ^ 52)

/-- A stand-in for package `strconv` on which parsing can be evaluated.  `ParseUint` and
`ParseInt` (base 10, 64 bits) and `ParseBool` follow the library.  `ParseFloat` is given for
strings of decimal digits denoting a number below `2 ^ 53` only and rejects every other
string; the library accepts more (signs, fractions, exponents, `Inf`, `NaN`), so this
stand-in is to be applied to digit strings and to strings that are no float literal. -/
def strconvDecimal : Strconv where
  ParseFloat := fun s =>
    match decimalValue s with
    | some n => if n < 2 ^ 53 then some (float64OfNat n) else none
    | none => none
  ParseUint := fun s =>
    match decimalValue s with
    | some n => if n < 2 ^ 64 then some n else none
    | none => none
  ParseInt := fun s =>
    match s.data with
    | '-' :: rest =>
      match decimalValue (String.mk rest) with
      | some n => if n ≤ 2 ^ 63 then some (-(n : Int)) else none
      | none => none
    | '+' :: rest =>
      match decimalValue (String.mk rest) with
      | some n => if n < 2 ^ 63 then some (n : Int) else none
      | none => none
    | _ =>
      match decimalValue s with
      | some n => if n < 2 ^ 63 then some (n : Int) else none
      | none => none
  ParseBool := fun s =>
    if s = "1" ∨ s = "t" ∨ s = "T" ∨ s = "TRUE" ∨ s = "true" ∨ s = "True" then some true
    else if s = "0" ∨ s = "f" ∨ s = "F" ∨ s = "FALSE" ∨ s = "false" ∨ s = "False" then
      some false
    else none

/-! ## Fingerprints (metrics.go) -/

/-- The digest functions of `crypto/sha1` and `crypto/md5` (library code, parameters):
the digest of a byte sequence. -/
structure HashLib where
  sha1Sum : List Nat → List Nat
  md5Sum : List Nat → List Nat

/-- State of a `hash.Hash` object: the bytes written to it since it was created or last
reset.  `Write p` appends `p`, `Sum(nil)` returns the digest of the bytes written and
leaves the state as it is, `Reset` empties it. -/
abbrev HashObj := List Nat

/-- The two package-level pools `sha1Pool` and `md5Pool`: the hash objects they hold. -/
structure Pools where
  sha1Pool : List HashObj
  md5Pool : List HashObj
  deriving Repr, DecidableEq

/-- Call `pool.Get()`: the pool hands out (and forgets) one of its objects, the one at
index `choice`, or a new object made by `New` when it has none there. -/
def poolGet (choice : Nat) (pool : List HashObj) : HashObj × List HashObj :=
  match pool.get? choice with
  | some h => (h, pool.eraseIdx choice)
  | none => ([], pool)

/-- Call `pool.Put(h)`. -/
def poolPut (h : HashObj) (pool : List HashObj) : List HashObj := h :: pool

/-- The loop `for _, tag := range m.Tags { h.Write([]byte(tag.Data)) }`. -/
def writeTags (h : HashObj) (tags : List Tag) : HashObj :=
  tags.foldl (fun acc tag => acc ++ stringBytes tag.Data) h

/-- SHA1 calculates a sha1 hash from this measure tags.  The deferred function resets the
object and puts it back after `h.Sum(nil)` has been evaluated. -/
def Measure.SHA1 (lib : HashLib) (choice : Nat) (m : Measure) (p : Pools) :
    List Nat × Pools :=
  match poolGet choice p.sha1Pool with
  | (h, rest) =>
    let h1 := writeTags h m.Tags
    let out := lib.sha1Sum h1
    (out, { p with sha1Pool := poolPut [] rest })

/-- MD5 calculates a md5 hash from this measure tags. -/
def Measure.MD5 (lib : HashLib) (choice : Nat) (m : Measure) (p : Pools) :
    List Nat × Pools :=
  match poolGet choice p.md5Pool with
  | (h, rest) =>
    let h1 := writeTags h m.Tags
    let out := lib.md5Sum h1
    (out, { p with md5Pool := poolPut [] rest })

/-- One earlier fingerprint call. -/
inductive HashCall where
  | sha1 (choice : Nat) (m : Measure)
  | md5 (choice : Nat) (m : Measure)
  deriving Repr, DecidableEq

/-- State of the pools after a sequence of fingerprint calls. -/
def poolsAfter (lib : HashLib) : List HashCall → Pools → Pools
  | [], p => p
  | HashCall.sha1 choice m :: rest, p => poolsAfter lib rest (m.SHA1 lib choice p).2
  | HashCall.md5 choice m :: rest, p => poolsAfter lib rest (m.MD5 lib choice p).2

/-- The concatenation of the Data strings of the tags, in sequence order. -/
def Measure.tagData (m : Measure) : String :=
  String.join (m.Tags.map Tag.Data)

/-- Every object held by the pool is in the reset state. -/
def AllReset (pool : List HashObj) : Prop := ∀ h ∈ pool, h = []

/-! ## Provided filters (filters.go) -/

/-- NewFilter takes an adapter that implements filter logic and returns a brand new
filter: `newFilter(adapter, finalizer, io.Pipe, NewWriter, NewReader)`. -/
def NewFilter {σ : Type} (rt : Runtime σ) (adapter : Option (FilterAdapterFn σ))
    (finalizer : Option (FinalizeAdapterFn σ)) : Filter σ × Option Error :=
  newFilter rt adapter finalizer (some rt.Pipe) (some (NewWriter rt)) (some (NewReader rt))

/-- Library call `strings.ReplaceAll(s, " ", "")`: every occurrence of the space
character U+0020 is removed. -/
def removeSpaces (s : String) : String :=
  String.mk (s.data.filter (fun c => decide (c ≠ ' ')))

/-- Library function `unicode.ToLower` on one character: an ASCII character is mapped
here ('A'..'Z' are moved by 32), any other by the case table `tbl` of the library, which
enters as a parameter. -/
def toLowerRune (tbl : Char → Char) (c : Char) : Char :=
  if c.toNat < 128 then
    if 65 ≤ c.toNat ∧ c.toNat ≤ 90 then Char.ofNat (c.toNat + 32) else c
  else tbl c

/-- Library function `strings.ToLower`: `unicode.ToLower` mapped over the characters. -/
def stringsToLower (tbl : Char → Char) (s : String) : String :=
  String.mk (s.data.map (toLowerRune tbl))

/-- The adapter of `NewNameSanityFilter`:
`m.Name = strings.ReplaceAll(m.Name, " ", ""); m.Name = strings.ToLower(m.Name);
mw.Write(*m)`. -/
def nameSanityAdapter {σ : Type} (tbl : Char → Char) : FilterAdapterFn σ := fun _ m mw =>
  let m1 : Measure := { m with Name := removeSpaces m.Name }
  let m2 : Measure := { m1 with Name := stringsToLower tbl m1.Name }
  do
    let _ ← writeMeasure mw m2
    pure ()

/-- Constructor `NewNameSanityFilter()`. -/
def NewNameSanityFilter {σ : Type} (rt : Runtime σ) (tbl : Char → Char) :
    Filter σ × Option Error :=
  NewFilter rt (some (nameSanityAdapter tbl)) none

/-- What the claims need of the case table of the library outside ASCII: a lowercased
character is no space and no ASCII capital, and lowercasing it again changes nothing. -/
def LowerTable (tbl : Char → Char) : Prop :=
  ∀ c : Char, 128 ≤ c.toNat →
    tbl c ≠ ' ' ∧ ¬ (65 ≤ (tbl c).toNat ∧ (tbl c).toNat ≤ 90) ∧
    toLowerRune tbl (tbl c) = tbl c

/-- A Measure writer that records each Measure written. -/
def traceWriter : MeasureWriter Trace :=
  some ⟨fun m => do emit (Event.write m); pure none⟩

/-- The counting filter keeps its totals in a Go map `map[string]uint64`.  The map
operations enter as a parameter: `make` allocates an empty map and returns its address,
`lookup` is `v, ok := m[k]`, `store` is `m[k] = v`, `keys` lists the keys in the order
in which `range` visits them. -/
structure MapHeap (σ : Type) where
  make : Go σ Nat
  lookup : Nat → String → Go σ (Option Nat)
  store : Nat → String → Nat → Go σ Unit
  keys : Nat → Go σ (List String)

/-- The order `a <= b` of Go strings: lexicographic on the bytes. -/
def stringLE (a b : String) : Prop :=
  bytesCompare (stringBytes a) (stringBytes b) ≠ 1

instance : DecidableRel stringLE :=
  fun a b => inferInstanceAs (Decidable (bytesCompare (stringBytes a) (stringBytes b) ≠ 1))

/-- Library function `sort.Strings`: the keys in increasing order. -/
def sortStrings (keys : List String) : List String :=
  List.insertionSort stringLE keys

/-- The loop `for _, k := range keys { f("Total %v records: %v", k, counter[k]) }`. -/
def reportTotals {σ : Type} (hp : MapHeap σ) (counter : Nat) (f : Feedback σ) :
    List String → Go σ Unit
  | [] => pure ()
  | k :: rest => do
    let c ← hp.lookup counter k
    callFeedback f "Total %v records: %v" [Arg.string k, Arg.uint64 (c.getD 0)]
    reportTotals hp counter f rest

/-- The finalizer of `NewMeasureCountFilter`: collect the keys, sort them, report. -/
def measureCountFinalizer {σ : Type} (hp : MapHeap σ) (counter : Nat) :
    FinalizeAdapterFn σ := fun f _ => do
  let keys ← hp.keys counter
  reportTotals hp counter f (sortStrings keys)

/-- The adapter of `NewMeasureCountFilter`:
`if _, ok := counter[m.Name]; !ok { counter[m.Name] = 0 }; counter[m.Name]++;
mw.Write(*m)`; the increment is that of a `uint64`. -/
def measureCountAdapter {σ : Type} (hp : MapHeap σ) (counter : Nat) :
    FilterAdapterFn σ := fun _ m mw => do
  let v ← hp.lookup counter m.Name
  match v with
  | none => hp.store counter m.Name 0
  | some _ => pure ()
  let c ← hp.lookup counter m.Name
  hp.store counter m.Name ((c.getD 0 + 1) % 2 ^ 64)
  let _ ← writeMeasure mw m
  pure ()

/-- NewMeasureCountFilter counts the number of inputed measures: the map is made once,
here, and captured by the adapter and the finalizer. -/
def NewMeasureCountFilter {σ : Type} (rt : Runtime σ) (hp : MapHeap σ) :
    Go σ (Filter σ × Option Error) := do
  let counter ← hp.make
  pure (NewFilter rt (some (measureCountAdapter hp counter))
    (some (measureCountFinalizer hp counter)))

/-! ## A world with an upstream and a heap

World state for following a worker: what its upstream reader will still yield, the maps
allocated so far, and the trace of effects. -/

/-- One result of a `Read` before end-of-stream: a record, or an error other than
`io.EOF`. -/
inductive ReadResult where
  | record (m : Measure)
  | fail (msg : String)
  deriving Repr, DecidableEq

/-- World of a worker. -/
structure World where
  upstream : List ReadResult
  maps : List (AList (fun _ : String => Nat))
  trace : Trace

/-- Record one effect in the world. -/
def emitW (e : Event) : Go World Unit :=
  fun w => (Res.ret (), { w with trace := w.trace ++ [e] })

/-- The upstream reader: yields the next read result of the world, and `io.EOF` once
they are used up.  A failed read leaves the Measure as it was. -/
def scriptedReader : MeasureReader World :=
  some ⟨fun m w =>
    match w.upstream with
    | [] => (Res.ret (m, some Error.EOF), w)
    | ReadResult.record r :: rest => (Res.ret (r, none), { w with upstream := rest })
    | ReadResult.fail msg :: rest =>
      (Res.ret (m, some (Error.New msg)), { w with upstream := rest })⟩

/-- A feedback callback that records each call in the world. -/
def worldFeedback : Feedback World :=
  some (fun format args => emitW (Event.feedback format args))

/-- A pipe whose creation and closing are recorded in the world. -/
def worldPipe : Go World (PipeReaderI World × PipeWriterI World) := do
  emitW Event.pipe
  pure (⟨fun _ => pure ([], some Error.EOF), do emitW Event.pipeClose; pure none⟩,
        ⟨fun bs => pure (bs.length, none), do emitW Event.pipeClose; pure none⟩)

/-- A Measure writer that records each Measure written in the world. -/
def worldWriter : MeasureWriter World :=
  some ⟨fun m => do emitW (Event.write m); pure none⟩

/-- Run time over the world that records each `go` statement and then runs the worker
to its end (the schedule in which the caller waits for the worker), with the given bound
on loop iterations; Measures encoded are recorded. -/
def worldRuntime (fuel : Nat) : Runtime World where
  go := fun body w => (body { w with trace := w.trace ++ [Event.go] }).2
  logPrintf := fun format args w => { w with trace := w.trace ++ [Event.log format args] }
  newWaitGroup :=
    pure ⟨fun n => emitW (Event.wgAdd n), emitW Event.wgDone, emitW Event.wgWait⟩
  Pipe := worldPipe
  gobNewEncoder := fun _ => pure ⟨fun m => do emitW (Event.write m); pure none⟩
  gobNewDecoder := fun _ => pure ⟨fun m => pure (m, some Error.EOF)⟩
  fuel := fuel

/-- The map at an address of the heap (the empty map when nothing is there). -/
def World.mapAt (w : World) (a : Nat) : AList (fun _ : String => Nat) :=
  w.maps.getD a ∅

/-- Go maps in the world. -/
def worldHeap : MapHeap World where
  make := fun w => (Res.ret w.maps.length, { w with maps := w.maps ++ [∅] })
  lookup := fun a k w => (Res.ret ((w.mapAt a).lookup k), w)
  store := fun a k v w =>
    (Res.ret (), { w with maps := w.maps.set a ((w.mapAt a).insert k v) })
  keys := fun a w => (Res.ret (w.mapAt a).keys, w)

/-- An adapter that records its call with the Measure it was given. -/
def recordingAdapter : FilterAdapterFn World := fun _ m _ => emitW (Event.adapter m)

/-- A finalizer that records its call. -/
def recordingFinalizer : FinalizeAdapterFn World := fun _ _ => emitW Event.finalizer

/-- The effect recorded for one read result by a filter worker built from
`recordingAdapter` and `worldFeedback`. -/
def filterEvent : ReadResult → Event
  | ReadResult.record m => Event.adapter m
  | ReadResult.fail msg =>
    Event.feedback "applierFilter error on read: %v" [Arg.error (Error.New msg)]

/-- What a filter worker does at end-of-stream: `if finalizer != nil { finalizer(f, mw) }`. -/
def runFinalizer {σ : Type} (finalizer : Option (FinalizeAdapterFn σ)) (f : Feedback σ)
    (mw : MeasureWriter σ) : Go σ Unit :=
  match finalizer with
  | some fin => fin f mw
  | none => pure ()

/-- The map of totals after the counting adapter has handled a record named `k`: the
entry is created with 0 when missing and then incremented as a `uint64`. -/
def bumpMap (c : AList (fun _ : String => Nat)) (k : String) :
    AList (fun _ : String => Nat) :=
  match c.lookup k with
  | none => (c.insert k 0).insert k ((0 + 1) % 2 ^ 64)
  | some v => c.insert k ((v + 1) % 2 ^ 64)

/-- The feedback call by which the counting finalizer reports the total of one name. -/
def totalEvent (c : AList (fun _ : String => Nat)) (k : String) : Event :=
  Event.feedback "Total %v records: %v" [Arg.string k, Arg.uint64 ((c.lookup k).getD 0)]

/-- The map holds, for exactly the names occurring in `prev`, the number of their
occurrences as a `uint64`. -/
def HoldsTotals (c : AList (fun _ : String => Nat)) (prev : List String) : Prop :=
  ∀ k : String,
    c.lookup k = if prev.count k = 0 then none else some (prev.count k % 2 ^ 64)

/-- The feedback call that reports `n` records of name `k`. -/
def totalOf (names : List String) (k : String) : Event :=
  Event.feedback "Total %v records: %v" [Arg.string k, Arg.uint64 (names.count k)]

/-- The totals after the counting adapter has handled the records `ms` in order. -/
def totalsAfter (c : AList (fun _ : String => Nat)) (ms : List Measure) :
    AList (fun _ : String => Nat) :=
  ms.foldl (fun acc m => bumpMap acc m.Name) c

/-! ## Merged input (inputs.go) -/

/-- A Go channel `chan Measure`: `send` is `c <- m`, `close` is `close(c)`, `recv` is one
step of `for m := range c` (`none` once the channel is closed and drained). -/
structure Chan (σ : Type) where
  send : Measure → Go σ Unit
  close : Go σ Unit
  recv : Go σ (Option Measure)

/-- The `for` loop of the drain worker of one input, followed for at most `fuel`
iterations: after a read error other than `io.EOF` the feedback is called and, there
being no `continue`, the Measure is sent all the same. -/
def mergedInputDrain {σ : Type} (f : Feedback σ) (r : MeasureReader σ) (outc : Chan σ) :
    Nat → Go σ Unit
  | 0 => fun s => (Res.timeout, s)
  | fuel + 1 => do
    let (m, err) ← readMeasure r
    let stop ←
      match err with
      | some e =>
        if e = Error.EOF then (pure true : Go σ Bool)
        else do
          callFeedback f "error on reading measure %v" [Arg.error e]
          pure false
      | none => pure false
    if stop then pure ()
    else do
      outc.send m
      mergedInputDrain f r outc fuel

/-- The drain worker of one input: the loop, then `wg.Done()`. -/
def mergedInputDrainWorker {σ : Type} (wg : WaitGroup σ) (f : Feedback σ)
    (r : MeasureReader σ) (outc : Chan σ) (fuel : Nat) : Go σ Unit := do
  mergedInputDrain f r outc fuel
  wg.Done

/-- The loop `for _, input := range inputs`: invoke the input, return its error if any,
else start its drain worker and add it to the wait group.  The result is the error that
ended the loop early, if any. -/
def mergedInputStart {σ : Type} (rt : Runtime σ) (wg : WaitGroup σ) (f : Feedback σ)
    (outc : Chan σ) : List (Input σ) → Go σ (Option Error)
  | [] => pure none
  | input :: rest =>
    match input with
    | none => Go.panic nilDeref
    | some inp => do
      let (r, err) ← inp f
      match err with
      | some e => pure (some e)
      | none => do
        rt.goStmt (mergedInputDrainWorker wg f r outc rt.fuel)
        wg.Add 1
        mergedInputStart rt wg f outc rest

/-- The loop `for m := range outc { mw.Write(m) }` of the fan-in worker. -/
def fanInLoop {σ : Type} (outc : Chan σ) (mw : MeasureWriter σ) : Nat → Go σ Unit
  | 0 => fun s => (Res.timeout, s)
  | fuel + 1 => do
    let v ← outc.recv
    match v with
    | none => pure ()
    | some m => do
      let _ ← writeMeasure mw m
      fanInLoop outc mw fuel

/-- The function literal returned by `newMergedInput`; `makeChan` is
`make(chan Measure)`. -/
def mergedInputRun {σ : Type} (rt : Runtime σ) (makeChan : Go σ (Chan σ))
    (ioPipe : IOPipeFn σ) (mWriter : MWriterFn σ) (mReader : MReaderFn σ)
    (inputs : List (Input σ)) : InputFn σ := fun f =>
  match f with
  | none => pure (none, some (Error.New "feedback funcion is nil"))
  | some _ => do
    let wg ← rt.newWaitGroup
    let outc ← makeChan
    let err ← mergedInputStart rt wg f outc inputs
    match err with
    | some e => pure (none, some e)
    | none => do
      rt.goStmt (do wg.Wait; outc.close)
      let (pr, pw) ← ioPipe
      let mr ← mReader pr.toReader
      let mw ← mWriter pw.toWriter
      rt.goStmt (Go.defer pw.Close (fanInLoop outc mw rt.fuel))
      pure (mr, none)

/-- Function `newMergedInput(ioPipe, mWriter, mReader, inputs...)`. -/
def newMergedInput {σ : Type} (rt : Runtime σ) (makeChan : Go σ (Chan σ))
    (ioPipe : Option (IOPipeFn σ)) (mWriter : Option (MWriterFn σ))
    (mReader : Option (MReaderFn σ)) (inputs : Option (List (Input σ))) :
    Input σ × Option Error :=
  match ioPipe with
  | none => (none, some (Error.New "iopipe is nil"))
  | some ioPipe =>
    match mWriter with
    | none => (none, some (Error.New "mWriter is nil"))
    | some mWriter =>
      match mReader with
      | none => (none, some (Error.New "mReader is nil"))
      | some mReader =>
        (some (mergedInputRun rt makeChan ioPipe mWriter mReader (inputs.getD [])), none)

/-- NewMergedInput takes a list of inputs and merges it in a single input. -/
def NewMergedInput {σ : Type} (rt : Runtime σ) (makeChan : Go σ (Chan σ))
    (inputs : Option (List (Input σ))) : Input σ × Option Error :=
  newMergedInput rt makeChan (some rt.Pipe) (some (NewWriter rt)) (some (NewReader rt))
    inputs

/-- A channel in the world that records each send and its closing (nothing is received
from it). -/
def worldChan : Chan World where
  send := fun m => emitW (Event.send m)
  close := emitW Event.chanClose
  recv := pure none

/-- What the drain worker sends for one read result: the record read, or, after a failed
read, the Measure left in the variable (the zero Measure). -/
def drainEvents : ReadResult → List Event
  | ReadResult.record m => [Event.send m]
  | ReadResult.fail msg =>
    [Event.feedback "error on reading measure %v" [Arg.error (Error.New msg)],
     Event.send Measure.zero]

/-! ## The typed codec over a stream -/

/-- Modelled from the spec: the rendezvous stream under the typed codec (spec sections
4.1 and 4.2), as its two ends see it; `encoding/gob` and `io.Pipe`, which implement it,
are library code outside the repository.  `records` are the complete records written and
not yet read, oldest first; `closed` tells that the write end has been closed. -/
structure Wire where
  records : List Measure
  closed : Bool
  deriving Repr, DecidableEq

/-- Modelled from the spec: closing the write end of the stream. -/
def wireClose : Go Wire (Option Error) :=
  fun w => (Res.ret none, { w with closed := true })

/-- Modelled from the spec: the codec and the stream of spec sections 4.1 and 4.2.
Encoding serializes one complete, independently decodable record onto the stream (and
fails once the write end is closed); decoding into a zero Measure yields the oldest
record not yet read, fails with end-of-stream once the stream is closed and drained, and
blocks (does not return) while the stream is open and empty; closing the write end is
observed by all later reads.  Workers started with `go` are followed to their end. -/
def wireRuntime : Runtime Wire where
  go := fun body w => (body w).2
  logPrintf := fun _ _ w => w
  newWaitGroup := pure ⟨fun _ => pure (), pure (), pure ()⟩
  Pipe := fun w0 => (Res.ret (⟨fun _ => pure ([], none), pure none⟩,
    ⟨fun bs => pure (bs.length, none), wireClose⟩), w0)
  gobNewEncoder := fun _ => pure ⟨fun m w =>
    if w.closed then (Res.ret (some (Error.New "io: read/write on closed pipe")), w)
    else (Res.ret none, { w with records := w.records ++ [m] })⟩
  gobNewDecoder := fun _ => pure ⟨fun d w =>
    match w.records with
    | m :: rest => (Res.ret (m, none), { w with records := rest })
    | [] => if w.closed then (Res.ret (d, some Error.EOF), w) else (Res.timeout, w)⟩
  fuel := 0

/-- Write the Measures in order; the errors returned by the calls of `Write`. -/
def writeAll {σ : Type} (mw : MeasureWriter σ) : List Measure → Go σ (List (Option Error))
  | [] => pure []
  | m :: rest => do
    let e ← writeMeasure mw m
    let es ← writeAll mw rest
    pure (e :: es)

/-- Read `n` times, each time into a fresh zero Measure; the results of the calls of
`Read`. -/
def readTimes {σ : Type} (mr : MeasureReader σ) : Nat → Go σ (List (Measure × Option Error))
  | 0 => pure []
  | n + 1 => do
    let r ← readMeasure mr
    let rs ← readTimes mr n
    pure (r :: rs)

/-- Write and read in lock step, one `Read` after each `Write`; the results of the calls
of `Read`. -/
def lockStep {σ : Type} (mw : MeasureWriter σ) (mr : MeasureReader σ) :
    List Measure → Go σ (List (Measure × Option Error))
  | [] => pure []
  | m :: rest => do
    let _ ← writeMeasure mw m
    let r ← readMeasure mr
    let rs ← lockStep mw mr rest
    pure (r :: rs)

/-- A session over one stream: make the pipe, wrap its ends with `NewWriter` and
`NewReader`, write all the Measures, close the write end, then read once more than was
written. -/
def codecSession {σ : Type} (rt : Runtime σ) (ms : List Measure) :
    Go σ (List (Option Error) × List (Measure × Option Error)) := do
  let (pr, pw) ← rt.Pipe
  let mw ← NewWriter rt pw.toWriter
  let mr ← NewReader rt pr.toReader
  let es ← writeAll mw ms
  let _ ← pw.Close
  let rs ← readTimes mr (ms.length + 1)
  pure (es, rs)

/-- The same session with each `Write` met by a `Read`, as a rendezvous stream pairs
them; the write end is closed after the last record and one more `Read` follows. -/
def codecSessionLockStep {σ : Type} (rt : Runtime σ) (ms : List Measure) :
    Go σ (List (Measure × Option Error)) := do
  let (pr, pw) ← rt.Pipe
  let mw ← NewWriter rt pw.toWriter
  let mr ← NewReader rt pr.toReader
  let rs ← lockStep mw mr ms
  let _ ← pw.Close
  let last ← readMeasure mr
  pure (rs ++ [last])

/-- The Measure writer that `NewWriter wireRuntime` returns. -/
def wireWriter : MeasureWriter Wire :=
  some ⟨fun m w =>
    if w.closed then (Res.ret (some (Error.New "io: read/write on closed pipe")), w)
    else (Res.ret none, { w with records := w.records ++ [m] })⟩

/-- The Measure reader that `NewReader wireRuntime` returns. -/
def wireReader : MeasureReader Wire :=
  some ⟨fun d w =>
    match w.records with
    | m :: rest => (Res.ret (m, none), { w with records := rest })
    | [] => if w.closed then (Res.ret (d, some Error.EOF), w) else (Res.timeout, w)⟩

/-! ## The calling goroutine of a merged output -/

/-- The wait group of the world: each operation is recorded. -/
def worldWaitGroup : WaitGroup World :=
  ⟨fun n => emitW (Event.wgAdd n), emitW Event.wgDone, emitW Event.wgWait⟩

/-- Run time over the world as seen by the calling goroutine: a `go` statement is
recorded and the worker is left to run on its own (its body is not followed). -/
def mainRuntime (fuel : Nat) : Runtime World :=
  { worldRuntime fuel with go := fun _ w => { w with trace := w.trace ++ [Event.go] } }

/-- An Output in the world that records its call and returns the given error without
reading from its stream. -/
def worldOutput (name : String) (err : Option Error) : OutputFn World := fun _ _ => do
  emitW (Event.call name)
  pure err

/-- Modelled from the spec: run time as `mainRuntime` in which the stream of the first
pipe has no reader (its consumer returned without reading).  By spec section 4.1 a write
on a rendezvous stream blocks until a matching read consumes the bytes, so encoding a
Measure onto that stream does not return; on every other stream it is recorded. -/
def stalledRuntime (fuel : Nat) : Runtime World :=
  { mainRuntime fuel with
    gobNewEncoder := fun _ w =>
      if w.trace.count Event.pipe = 1 then (Res.ret ⟨fun _ w1 => (Res.timeout, w1)⟩, w)
      else (Res.ret ⟨fun m => do emitW (Event.write m); pure none⟩, w) }

/-! ## Theorems -/

/-! ### Running `Go` code -/

@[simp] theorem Go.run_pure {σ α : Type} (a : α) (s : σ) :
    (pure a : Go σ α) s = (Res.ret a, s) := rfl

theorem Go.run_bind {σ α β : Type} (m : Go σ α) (k : α → Go σ β) (s : σ) :
    (m >>= k) s =
      match m s with
      | (Res.ret a, s1) => k a s1
      | (Res.panic e, s1) => (Res.panic e, s1)
      | (Res.timeout, s1) => (Res.timeout, s1) := rfl

theorem Go.run_bind_ret {σ α β : Type} (m : Go σ α) (k : α → Go σ β) (s s1 : σ) (a : α)
    (h : m s = (Res.ret a, s1)) : (m >>= k) s = k a s1 := by
  rw [Go.run_bind, h]

/-! ### Pipeline assembly -/

/-- Claim C1.  For non-nil Input `i`, Filter `f` and Output `o`, `NewIOPipeline` returns
the Runnable `ioPipelineRun i f o`, and for every feedback `fb` and state `s`:
with a nil `fb` it returns the error "feedback function is nil" in the unchanged state
(none of `i`, `f`, `o` has run); if `i fb` returns an error, exactly that error is
returned in the state `i` left (`f` and `o` have not run); if `i` succeeds with reader
`ri` and `f fb ri` returns an error, exactly that error is returned in the state `f` left
(`o` has not run); otherwise the result and final state are exactly those of `o fb rf`,
with `rf` the reader returned by `f`. -/
theorem newIOPipeline_runnable_behaviour {σ : Type} (i : InputFn σ) (f : FilterFn σ)
    (o : OutputFn σ) :
    NewIOPipeline (some i) (some f) (some o) = (some (ioPipelineRun i f o), none) ∧
    (∀ s : σ, ioPipelineRun i f o none s
        = (Res.ret (some (Error.New "feedback function is nil")), s)) ∧
    (∀ (fb : Feedback σ) (s s1 : σ) (ri : MeasureReader σ) (e : Error),
        fb ≠ none → i fb s = (Res.ret (ri, some e), s1) →
        ioPipelineRun i f o fb s = (Res.ret (some e), s1)) ∧
    (∀ (fb : Feedback σ) (s s1 s2 : σ) (ri rf : MeasureReader σ) (e : Error),
        fb ≠ none → i fb s = (Res.ret (ri, none), s1) →
        f fb ri s1 = (Res.ret (rf, some e), s2) →
        ioPipelineRun i f o fb s = (Res.ret (some e), s2)) ∧
    (∀ (fb : Feedback σ) (s s1 s2 : σ) (ri rf : MeasureReader σ),
        fb ≠ none → i fb s = (Res.ret (ri, none), s1) →
        f fb ri s1 = (Res.ret (rf, none), s2) →
        ioPipelineRun i f o fb s = o fb rf s2) := by
  refine ⟨rfl, fun s => rfl, ?_, ?_, ?_⟩
  · intro fb s s1 ri e hfb hi
    cases fb with
    | none => exact absurd rfl hfb
    | some g =>
      simp only [ioPipelineRun]
      rw [Go.run_bind_ret _ _ s s1 _ hi]
      rfl
  · intro fb s s1 s2 ri rf e hfb hi hf
    cases fb with
    | none => exact absurd rfl hfb
    | some g =>
      simp only [ioPipelineRun]
      rw [Go.run_bind_ret _ _ s s1 _ hi]
      simp only []
      rw [Go.run_bind_ret _ _ s1 s2 _ hf]
      rfl
  · intro fb s s1 s2 ri rf hfb hi hf
    cases fb with
    | none => exact absurd rfl hfb
    | some g =>
      simp only [ioPipelineRun]
      rw [Go.run_bind_ret _ _ s s1 _ hi]
      simp only []
      rw [Go.run_bind_ret _ _ s1 s2 _ hf]

/-- Witness for C1: an Input that fails with "input error" after recording its call; the
Runnable returns that error and the trace holds the call of the Input only. -/
theorem newIOPipeline_runnable_behaviour_witness :
    ioPipelineRun (traceInput "i" none (some (Error.New "input error")))
        (traceFilter "f" none none) (traceOutput "o" none) traceFeedback []
      = (Res.ret (some (Error.New "input error")), [Event.call "i"]) :=
  (newIOPipeline_runnable_behaviour (traceInput "i" none (some (Error.New "input error")))
      (traceFilter "f" none none) (traceOutput "o" none)).2.2.1
    traceFeedback [] [Event.call "i"] none (Error.New "input error")
    (by simp [traceFeedback]) rfl

/-- Claim C2.  `NewIOPipeline i f o` returns an error exactly when one of `i`, `f`, `o`
is nil, and then the Runnable is nil; when all three are non-nil the Runnable is non-nil
and the error is nil. -/
theorem newIOPipeline_error_iff {σ : Type} (i : Input σ) (f : Filter σ) (o : Output σ) :
    ((NewIOPipeline i f o).2.isSome = true ∧ (NewIOPipeline i f o).1.isNone = true
        ↔ (i.isNone = true ∨ f.isNone = true ∨ o.isNone = true)) ∧
    ((NewIOPipeline i f o).1.isSome = true ∧ (NewIOPipeline i f o).2.isNone = true
        ↔ (i.isSome = true ∧ f.isSome = true ∧ o.isSome = true)) ∧
    ((NewIOPipeline i f o).2.isSome = true
        ↔ (i.isNone = true ∨ f.isNone = true ∨ o.isNone = true)) := by
  cases i <;> cases f <;> cases o <;> simp [NewIOPipeline]

/-! ### Sequential filter chain -/

theorem composedFilterRun_threaded {σ : Type} (fb : Feedback σ) (fs : List (FilterFn σ))
    (r r2 : MeasureReader σ) (s s2 : σ) (h : Threaded fb fs r s r2 s2) :
    composedFilterRun (fs.map some) fb r s = (Res.ret (r2, none), s2) := by
  induction h with
  | nil r s => rfl
  | cons g rest r r1 r2 s s1 s2 hg _ ih =>
    simp only [List.map_cons, composedFilterRun]
    rw [Go.run_bind_ret _ _ s s1 _ hg]
    exact ih

theorem composedFilterRun_fails {σ : Type} (fb : Feedback σ) (pre post : List (FilterFn σ))
    (g : FilterFn σ) (r r1 r2 : MeasureReader σ) (s s1 s2 : σ) (e : Error)
    (h : Threaded fb pre r s r1 s1) (hg : g fb r1 s1 = (Res.ret (r2, some e), s2)) :
    composedFilterRun ((pre ++ g :: post).map some) fb r s
      = (Res.ret (none, some e), s2) := by
  induction h with
  | nil r s =>
    simp only [List.nil_append, List.map_cons, composedFilterRun]
    rw [Go.run_bind_ret _ _ s s2 _ hg]
    rfl
  | cons g0 rest r r1 r2 s s1 s2 hg0 _ ih =>
    simp only [List.cons_append, List.map_cons, composedFilterRun]
    rw [Go.run_bind_ret _ _ s s1 _ hg0]
    exact ih hg

/-- Claim C3.  For a non-empty list `g :: gs` of non-nil Filters, `NewComposedFilter`
returns (without logging or any other effect) a non-nil Filter `run` and a nil error, and
`run fb r` threads the stream from left to right: when every filter in turn succeeds on
the reader returned by the one before it, `run` returns the reader returned by the last
filter, with a nil error, in the state the last filter left; when the filters before
position k succeed and filter k returns an error `e`, `run` returns a nil reader and
exactly `e`, in the state filter k left, whatever the filters after k are (they are not
invoked). -/
theorem newComposedFilter_threads {σ : Type} (rt : Runtime σ) (g : FilterFn σ)
    (gs : List (FilterFn σ)) (s0 : σ) :
    ∃ run : FilterFn σ,
      NewComposedFilter rt (some ((g :: gs).map some)) s0
        = (Res.ret (some run, none), s0) ∧
      (∀ (fb : Feedback σ) (r r2 : MeasureReader σ) (s s2 : σ),
        Threaded fb (g :: gs) r s r2 s2 → run fb r s = (Res.ret (r2, none), s2)) ∧
      (∀ (fb : Feedback σ) (pre post : List (FilterFn σ)) (h : FilterFn σ)
          (r r1 r2 : MeasureReader σ) (s s1 s2 : σ) (e : Error),
        g :: gs = pre ++ h :: post → Threaded fb pre r s r1 s1 →
        h fb r1 s1 = (Res.ret (r2, some e), s2) →
        run fb r s = (Res.ret (none, some e), s2)) := by
  refine ⟨composedFilterRun ((g :: gs).map some), rfl, ?_, ?_⟩
  · intro fb r r2 s s2 h
    exact composedFilterRun_threaded fb (g :: gs) r r2 s s2 h
  · intro fb pre post h r r1 r2 s s1 s2 e hsplit hpre hh
    rw [hsplit]
    exact composedFilterRun_fails fb pre post h r r1 r2 s s1 s2 e hpre hh

/-- Witness for C3: three recording filters, the second of which fails; the composed
Filter returns a nil reader and that error, and the trace holds the calls of the first
two filters only. -/
theorem newComposedFilter_threads_witness :
    ∃ run : FilterFn Trace,
      NewComposedFilter traceRuntime
          (some ([traceFilter "f1" (traceReader "r1") none,
                  traceFilter "f2" none (some (Error.New "filter error")),
                  traceFilter "f3" (traceReader "r3") none].map some)) []
        = (Res.ret (some run, none), []) ∧
      run traceFeedback (traceReader "r0") []
        = (Res.ret (none, some (Error.New "filter error")),
            [Event.call "f1", Event.call "f2"]) := by
  obtain ⟨run, hnew, _, hfail⟩ :=
    newComposedFilter_threads traceRuntime (traceFilter "f1" (traceReader "r1") none)
      [traceFilter "f2" none (some (Error.New "filter error")),
       traceFilter "f3" (traceReader "r3") none] []
  refine ⟨run, hnew, ?_⟩
  exact hfail traceFeedback [traceFilter "f1" (traceReader "r1") none]
    [traceFilter "f3" (traceReader "r3") none]
    (traceFilter "f2" none (some (Error.New "filter error")))
    (traceReader "r0") (traceReader "r1") none [] [Event.call "f1"]
    [Event.call "f1", Event.call "f2"] (Error.New "filter error") rfl
    (Threaded.cons _ _ _ _ _ _ _ _ rfl (Threaded.nil _ _)) rfl

/-- Claim C4 (the code at the failing input).  Called with an empty non-nil slice,
`NewComposedFilter` panics with an index-out-of-range error when it evaluates
`flts[0]`: it returns no Filter and leaves the state as it was. -/
theorem newComposedFilter_empty_slice_panics {σ : Type} (rt : Runtime σ) (s : σ) :
    NewComposedFilter rt (some []) s
      = (Res.panic "index out of range [0] with length 0", s) := rfl

/-- Claim C5, as stated, fails.  A chain composed from no arguments and invoked with a
recording feedback callback leaves a trace holding the line of the standard logger only:
the number of feedback calls is 0. -/
theorem composeAndInvoke_empty_no_feedback :
    composeAndInvoke traceRuntime none traceFeedback (traceReader "r") []
        = (Res.ret (traceReader "r", none), [Event.log "no filters" []]) ∧
    feedbackCalls
        (composeAndInvoke traceRuntime none traceFeedback (traceReader "r") []).2 = 0 :=
  ⟨rfl, rfl⟩

/-- Claim C5, amended.  A chain composed by `NewComposedFilter` from no arguments (the
nil list) flags the likely misconfiguration once, through the standard logger
(`log.Printf "no filters"`), at composition time; the Filter it returns, invoked with
any feedback `fb` and reader `r`, returns `r` and a nil error and performs no effect, so
`fb` is never invoked. -/
theorem composeAndInvoke_nil_logs_once {σ : Type} (rt : Runtime σ) (fb : Feedback σ)
    (r : MeasureReader σ) (s : σ) :
    composeAndInvoke rt none fb r s
        = (Res.ret (r, none), rt.logPrintf "no filters" [] s) ∧
    (∃ run : FilterFn σ,
      NewComposedFilter rt none s
          = (Res.ret (some run, none), rt.logPrintf "no filters" [] s) ∧
      ∀ s1 : σ, run fb r s1 = (Res.ret (r, none), s1)) :=
  ⟨rfl, composedFilterRun [], rfl, fun _ => rfl⟩

/-! ### Stage archetypes: validation -/

/-- Claim C6.  Each of `newSource`, `newEncoder`, `newFilter`, `newDecoder` and
`newSinker` returns an error together with a nil stage function exactly when one of its
required arguments (adapter, pipe factory, Measure-writer factory, Measure-reader
factory) is nil, and returns a non-nil stage function with a nil error exactly when all
of them are non-nil.  The finalizer of `newFilter` plays no part: the same holds for
every finalizer, the nil one included. -/
theorem constructors_fail_iff_nil_argument {σ : Type} (rt : Runtime σ)
    (sa : Option (SourceAdapterFn σ)) (ea : Option (EncoderAdapterFn σ))
    (fa : Option (FilterAdapterFn σ)) (fin : Option (FinalizeAdapterFn σ))
    (da : Option (DecoderAdapterFn σ)) (ka : Option (SinkerAdapterFn σ))
    (p : Option (IOPipeFn σ)) (w : Option (MWriterFn σ)) (r : Option (MReaderFn σ)) :
    (((newSource rt sa p).2.isSome = true ∧ (newSource rt sa p).1.isNone = true
        ↔ (sa.isNone = true ∨ p.isNone = true)) ∧
      ((newSource rt sa p).1.isSome = true ∧ (newSource rt sa p).2.isNone = true
        ↔ (sa.isSome = true ∧ p.isSome = true))) ∧
    (((newEncoder rt ea p w r).2.isSome = true ∧ (newEncoder rt ea p w r).1.isNone = true
        ↔ (ea.isNone = true ∨ p.isNone = true ∨ w.isNone = true ∨ r.isNone = true)) ∧
      ((newEncoder rt ea p w r).1.isSome = true ∧ (newEncoder rt ea p w r).2.isNone = true
        ↔ (ea.isSome = true ∧ p.isSome = true ∧ w.isSome = true ∧ r.isSome = true))) ∧
    (((newFilter rt fa fin p w r).2.isSome = true
          ∧ (newFilter rt fa fin p w r).1.isNone = true
        ↔ (fa.isNone = true ∨ p.isNone = true ∨ w.isNone = true ∨ r.isNone = true)) ∧
      ((newFilter rt fa fin p w r).1.isSome = true
          ∧ (newFilter rt fa fin p w r).2.isNone = true
        ↔ (fa.isSome = true ∧ p.isSome = true ∧ w.isSome = true ∧ r.isSome = true)) ∧
      ((newFilter rt fa none p w r).2.isNone = true
        ↔ (fa.isSome = true ∧ p.isSome = true ∧ w.isSome = true ∧ r.isSome = true))) ∧
    (((newDecoder rt da p).2.isSome = true ∧ (newDecoder rt da p).1.isNone = true
        ↔ (da.isNone = true ∨ p.isNone = true)) ∧
      ((newDecoder rt da p).1.isSome = true ∧ (newDecoder rt da p).2.isNone = true
        ↔ (da.isSome = true ∧ p.isSome = true))) ∧
    (((newSinker ka).2.isSome = true ∧ (newSinker ka).1.isNone = true
        ↔ ka.isNone = true) ∧
      ((newSinker ka).1.isSome = true ∧ (newSinker ka).2.isNone = true
        ↔ ka.isSome = true)) := by
  refine ⟨?_, ?_, ?_, ?_, ?_⟩
  · cases sa <;> cases p <;> simp [newSource]
  · cases ea <;> cases p <;> cases w <;> cases r <;> simp [newEncoder]
  · cases fa <;> cases p <;> cases w <;> cases r <;> simp [newFilter]
  · cases da <;> cases p <;> simp [newDecoder]
  · cases ka <;> simp [newSinker]

/-- Claim C7.  For the stage function built by each of the five constructors from
non-nil arguments (and any finalizer): invoked with a nil feedback it returns an error
(and a nil output stream where it has one) and leaves the state unchanged; for the
encoder, filter, decoder and sinker, invoked with a nil reader it returns an error (and
a nil output stream) and leaves the state unchanged.  The pipe factory, the Measure
factories, the `go` statement and the adapter are the only sources of effects, so the
unchanged state says that no stream was allocated and no worker started. -/
theorem stage_nil_feedback_or_reader_fails {σ : Type} (rt : Runtime σ)
    (sa : SourceAdapterFn σ) (ea : EncoderAdapterFn σ) (fa : FilterAdapterFn σ)
    (fin : Option (FinalizeAdapterFn σ)) (da : DecoderAdapterFn σ)
    (ka : SinkerAdapterFn σ) (p : IOPipeFn σ) (w : MWriterFn σ) (r : MReaderFn σ) :
    (∃ run : SourceFn σ, newSource rt (some sa) (some p) = (some run, none) ∧
      ∀ s : σ, ∃ e : Error, run none s = (Res.ret (none, some e), s)) ∧
    (∃ run : EncoderFn σ,
      newEncoder rt (some ea) (some p) (some w) (some r) = (some run, none) ∧
      (∀ (rd : ReadCloser σ) (s : σ), ∃ e : Error,
        run none rd s = (Res.ret (none, some e), s)) ∧
      (∀ (fb : Feedback σ) (s : σ), ∃ e : Error,
        run fb none s = (Res.ret (none, some e), s))) ∧
    (∃ run : FilterFn σ,
      newFilter rt (some fa) fin (some p) (some w) (some r) = (some run, none) ∧
      (∀ (rd : MeasureReader σ) (s : σ), ∃ e : Error,
        run none rd s = (Res.ret (none, some e), s)) ∧
      (∀ (fb : Feedback σ) (s : σ), ∃ e : Error,
        run fb none s = (Res.ret (none, some e), s))) ∧
    (∃ run : DecoderFn σ, newDecoder rt (some da) (some p) = (some run, none) ∧
      (∀ (rd : MeasureReader σ) (s : σ), ∃ e : Error,
        run none rd s = (Res.ret (none, some e), s)) ∧
      (∀ (fb : Feedback σ) (s : σ), ∃ e : Error,
        run fb none s = (Res.ret (none, some e), s))) ∧
    (∃ run : SinkerFn σ, newSinker (some ka) = (some run, none) ∧
      (∀ (rd : ReadCloser σ) (s : σ), ∃ e : Error, run none rd s = (Res.ret (some e), s)) ∧
      (∀ (fb : Feedback σ) (s : σ), ∃ e : Error,
        run fb none s = (Res.ret (some e), s))) := by
  refine ⟨⟨_, rfl, fun s => ⟨_, rfl⟩⟩, ⟨_, rfl, fun rd s => ⟨_, rfl⟩, ?_⟩,
    ⟨_, rfl, fun rd s => ⟨_, rfl⟩, ?_⟩, ⟨_, rfl, fun rd s => ⟨_, rfl⟩, ?_⟩,
    ⟨_, rfl, fun rd s => ⟨_, rfl⟩, ?_⟩⟩
  · intro fb s
    cases fb with
    | none => exact ⟨_, rfl⟩
    | some g => exact ⟨_, rfl⟩
  · intro fb s
    cases fb with
    | none => exact ⟨_, rfl⟩
    | some g => exact ⟨_, rfl⟩
  · intro fb s
    cases fb with
    | none => exact ⟨_, rfl⟩
    | some g => exact ⟨_, rfl⟩
  · intro fb s
    cases fb with
    | none => exact ⟨_, rfl⟩
    | some g => exact ⟨_, rfl⟩

/-- With non-nil feedback and reader the filter stage does allocate a pipe and start a
worker: on the recording run time the trace is the pipe followed by the `go`. -/
theorem filterRun_valid_allocates_and_starts :
    (filterRun traceRuntime (fun _ _ _ => pure ()) none tracePipe (NewWriter traceRuntime)
        (NewReader traceRuntime) traceFeedback (traceReader "r") []).2
      = [Event.pipe, Event.go] := rfl

/-! ### Merged output -/

/-- Claim C8 (the code at the failing inputs).  The Output returned by `NewMergedOutput`
for one output does not validate its arguments.  Invoked with a nil feedback and a reader
at end-of-stream it allocates a pipe, starts the worker, reads from the reader and
returns a nil error; invoked with a nil reader it allocates a pipe and starts the worker
before panicking on the first read. -/
theorem newMergedOutput_nil_arguments_not_rejected :
    ∃ run : OutputFn Trace,
      NewMergedOutput traceRuntime (some [some (traceOutput "o" none)])
        = (some run, none) ∧
      run none (traceReader "r") []
        = (Res.ret none,
            [Event.pipe, Event.go, Event.wgAdd 1, Event.call "r", Event.pipeClose,
             Event.wgWait]) ∧
      run traceFeedback none []
        = (Res.panic nilDeref, [Event.pipe, Event.go, Event.wgAdd 1]) :=
  ⟨_, rfl, rfl, rfl⟩

/-! ### Field comparison -/

/-- Claim C9.  When the types of two Fields differ, `Compare` returns 0 and the error
"cant compare fields of different types", whatever the data; when both have type `TNil`
it returns 0 and the error "Cant compare nil values". -/
theorem compare_mismatch_or_nil_fails (a b : Field) :
    (a.Typ ≠ b.Typ →
      a.Compare b = Res.ret (0, some (Error.New "cant compare fields of different types")))
    ∧ (a.Typ = TNil → b.Typ = TNil →
      a.Compare b = Res.ret (0, some (Error.New "Cant compare nil values"))) := by
  constructor
  · intro h
    simp only [Field.Compare]
    rw [if_pos h]
  · intro ha hb
    simp [Field.Compare, ha, hb, TNil, TFloat, TString, TUint, TInt, TBool]

/-- Witness for C9: an int field against a string field, and two nil fields. -/
theorem compare_mismatch_or_nil_fails_witness :
    Field.Compare ⟨"a", TInt, Value.int64 1⟩ ⟨"b", TString, Value.string "x"⟩
        = Res.ret (0, some (Error.New "cant compare fields of different types")) ∧
    Field.Compare ⟨"a", TNil, Value.nil⟩ ⟨"b", TNil, Value.nil⟩
        = Res.ret (0, some (Error.New "Cant compare nil values")) :=
  ⟨(compare_mismatch_or_nil_fails ⟨"a", TInt, Value.int64 1⟩
      ⟨"b", TString, Value.string "x"⟩).1 (by decide),
   (compare_mismatch_or_nil_fails ⟨"a", TNil, Value.nil⟩ ⟨"b", TNil, Value.nil⟩).2
      rfl rfl⟩

theorem bytesCompare_lt (a b : List Nat) (h : List.Lex (· < ·) a b) :
    bytesCompare a b = -1 := by
  induction h with
  | nil => rfl
  | cons _ ih => simp [bytesCompare, ih]
  | rel hlt => simp [bytesCompare, hlt]

theorem bytesCompare_gt (a b : List Nat) (h : List.Lex (· < ·) b a) :
    bytesCompare a b = 1 := by
  induction h with
  | nil => rfl
  | cons _ ih => simp [bytesCompare, ih]
  | rel hlt => simp [bytesCompare, hlt, Nat.lt_asymm hlt]

theorem bytesCompare_self (a : List Nat) : bytesCompare a a = 0 := by
  induction a with
  | nil => rfl
  | cons x xs ih => simp [bytesCompare, ih]

theorem bytesCompare_swap (a b : List Nat) : bytesCompare b a = -bytesCompare a b := by
  induction a generalizing b with
  | nil => cases b <;> simp [bytesCompare]
  | cons x xs ih =>
    cases b with
    | nil => simp [bytesCompare]
    | cons y ys =>
      simp only [bytesCompare]
      rcases Nat.lt_trichotomy x y with h | h | h
      · simp [h, Nat.lt_asymm h]
      · subst h
        simp [ih]
      · simp [h, Nat.lt_asymm h]

theorem bytesCompare_range (a b : List Nat) :
    bytesCompare a b = -1 ∨ bytesCompare a b = 0 ∨ bytesCompare a b = 1 := by
  induction a generalizing b with
  | nil => cases b <;> simp [bytesCompare]
  | cons x xs ih =>
    cases b with
    | nil => simp [bytesCompare]
    | cons y ys =>
      simp only [bytesCompare]
      split
      · simp
      · split
        · simp
        · exact ih ys

theorem compare_int64 (a b : Field) (x y : Int) (ha : a.Typ = TInt) (hb : b.Typ = TInt)
    (hx : a.Data = Value.int64 x) (hy : b.Data = Value.int64 y) :
    a.Compare b = Res.ret (if x < y then -1 else if y < x then 1 else 0, none) := by
  obtain ⟨an, at_, ad⟩ := a
  obtain ⟨bn, bt, bd⟩ := b
  simp only at ha hb hx hy
  subst ha hb hx hy
  simp only [Field.Compare, TInt, TFloat, TString, TUint]
  by_cases h1 : x < y
  · simp [h1]
  · by_cases h2 : y < x
    · simp [h1, h2]
    · simp [h1, h2]

theorem compare_uint64 (a b : Field) (x y : Nat) (ha : a.Typ = TUint) (hb : b.Typ = TUint)
    (hx : a.Data = Value.uint64 x) (hy : b.Data = Value.uint64 y) :
    a.Compare b = Res.ret (if x < y then -1 else if y < x then 1 else 0, none) := by
  obtain ⟨an, at_, ad⟩ := a
  obtain ⟨bn, bt, bd⟩ := b
  simp only at ha hb hx hy
  subst ha hb hx hy
  simp only [Field.Compare, TFloat, TString, TUint]
  by_cases h1 : x < y
  · simp [h1]
  · by_cases h2 : y < x
    · simp [h1, h2]
    · simp [h1, h2]

theorem compare_string (a b : Field) (x y : String) (ha : a.Typ = TString)
    (hb : b.Typ = TString) (hx : a.Data = Value.string x) (hy : b.Data = Value.string y) :
    a.Compare b = Res.ret (stringsCompare x y, none) := by
  obtain ⟨an, at_, ad⟩ := a
  obtain ⟨bn, bt, bd⟩ := b
  simp only at ha hb hx hy
  subst ha hb hx hy
  simp [Field.Compare, TFloat, TString]

theorem dataMatches_cases (f : Field) (h : f.dataMatches = true) :
    (f.Typ = TInt ∧ ∃ x, f.Data = Value.int64 x) ∨
    (f.Typ = TUint ∧ ∃ x, f.Data = Value.uint64 x) ∨
    (f.Typ = TString ∧ ∃ x, f.Data = Value.string x) := by
  obtain ⟨n, t, d⟩ := f
  cases d <;> simp [Field.dataMatches] at h
  · exact Or.inl ⟨h, _, rfl⟩
  · exact Or.inr (Or.inl ⟨h, _, rfl⟩)
  · exact Or.inr (Or.inr ⟨h, _, rfl⟩)

theorem compare_matching_swap (a b : Field) (ha : a.dataMatches = true)
    (hb : b.dataMatches = true) (hab : a.Typ = b.Typ) :
    ∃ c : Int, (c = -1 ∨ c = 0 ∨ c = 1) ∧ a.Compare b = Res.ret (c, none) ∧
      b.Compare a = Res.ret (-c, none) := by
  rcases dataMatches_cases a ha with ⟨hta, x, hx⟩ | ⟨hta, x, hx⟩ | ⟨hta, x, hx⟩ <;>
    rcases dataMatches_cases b hb with ⟨htb, y, hy⟩ | ⟨htb, y, hy⟩ | ⟨htb, y, hy⟩
  all_goals try (exfalso; rw [hta, htb] at hab; revert hab; decide)
  · rw [compare_int64 a b x y hta htb hx hy, compare_int64 b a y x htb hta hy hx]
    rcases lt_trichotomy x y with h | h | h
    · exact ⟨-1, Or.inl rfl, by simp [h], by simp [h, not_lt_of_lt h]⟩
    · subst h
      exact ⟨0, Or.inr (Or.inl rfl), by simp, by simp⟩
    · exact ⟨1, Or.inr (Or.inr rfl), by simp [h, not_lt_of_lt h], by simp [h]⟩
  · rw [compare_uint64 a b x y hta htb hx hy, compare_uint64 b a y x htb hta hy hx]
    rcases lt_trichotomy x y with h | h | h
    · exact ⟨-1, Or.inl rfl, by simp [h], by simp [h, not_lt_of_lt h]⟩
    · subst h
      exact ⟨0, Or.inr (Or.inl rfl), by simp, by simp⟩
    · exact ⟨1, Or.inr (Or.inr rfl), by simp [h, not_lt_of_lt h], by simp [h]⟩
  · rw [compare_string a b x y hta htb hx hy, compare_string b a y x htb hta hy hx]
    exact ⟨stringsCompare x y, bytesCompare_range _ _, rfl, by
      simp only [stringsCompare]
      rw [bytesCompare_swap]⟩

theorem compare_matching_self (a : Field) (ha : a.dataMatches = true) :
    a.Compare a = Res.ret (0, none) := by
  rcases dataMatches_cases a ha with ⟨hta, x, hx⟩ | ⟨hta, x, hx⟩ | ⟨hta, x, hx⟩
  · rw [compare_int64 a a x x hta hta hx hx]
    simp
  · rw [compare_uint64 a a x x hta hta hx hx]
    simp
  · rw [compare_string a a x x hta hta hx hx]
    simp [stringsCompare, bytesCompare_self]

/-- Claim C10.  For two Fields of the same type `TInt`, `TUint` or `TString` whose data
have the matching dynamic type, `Compare` succeeds (nil error) and returns -1 when the
data of the first is less than that of the second, 0 when they are equal and +1 when it
is greater, the order being that of the integers for `int64` and `uint64` and the
lexicographic order of the bytes for strings.  Consequently `b.Compare a` returns the
negation of what `a.Compare b` returns, the value being one of -1, 0, +1, and
`a.Compare a` returns 0. -/
theorem compare_same_type_natural_order (a b : Field) :
    (∀ x y : Int, a.Typ = TInt → b.Typ = TInt →
      a.Data = Value.int64 x → b.Data = Value.int64 y →
      (x < y → a.Compare b = Res.ret (-1, none)) ∧
      (x = y → a.Compare b = Res.ret (0, none)) ∧
      (y < x → a.Compare b = Res.ret (1, none))) ∧
    (∀ x y : Nat, a.Typ = TUint → b.Typ = TUint →
      a.Data = Value.uint64 x → b.Data = Value.uint64 y →
      (x < y → a.Compare b = Res.ret (-1, none)) ∧
      (x = y → a.Compare b = Res.ret (0, none)) ∧
      (y < x → a.Compare b = Res.ret (1, none))) ∧
    (∀ x y : String, a.Typ = TString → b.Typ = TString →
      a.Data = Value.string x → b.Data = Value.string y →
      (List.Lex (· < ·) (stringBytes x) (stringBytes y) →
        a.Compare b = Res.ret (-1, none)) ∧
      (x = y → a.Compare b = Res.ret (0, none)) ∧
      (List.Lex (· < ·) (stringBytes y) (stringBytes x) →
        a.Compare b = Res.ret (1, none))) ∧
    (a.dataMatches = true → b.dataMatches = true → a.Typ = b.Typ →
      ∃ c : Int, (c = -1 ∨ c = 0 ∨ c = 1) ∧ a.Compare b = Res.ret (c, none) ∧
        b.Compare a = Res.ret (-c, none)) ∧
    (a.dataMatches = true → a.Compare a = Res.ret (0, none)) := by
  refine ⟨?_, ?_, ?_, compare_matching_swap a b, compare_matching_self a⟩
  · intro x y ha hb hx hy
    rw [compare_int64 a b x y ha hb hx hy]
    refine ⟨fun h => by simp [h], fun h => by simp [h], fun h => ?_⟩
    simp [h, not_lt_of_lt h]
  · intro x y ha hb hx hy
    rw [compare_uint64 a b x y ha hb hx hy]
    refine ⟨fun h => by simp [h], fun h => by simp [h], fun h => ?_⟩
    simp [h, not_lt_of_lt h]
  · intro x y ha hb hx hy
    rw [compare_string a b x y ha hb hx hy]
    refine ⟨fun h => ?_, fun h => ?_, fun h => ?_⟩
    · simp only [stringsCompare]
      rw [bytesCompare_lt _ _ h]
    · subst h
      simp only [stringsCompare]
      rw [bytesCompare_self]
    · simp only [stringsCompare]
      rw [bytesCompare_gt _ _ h]

/-- Witness for C10: the int fields 3 and 7, the uint fields 9 and 2, and the string
fields "abc" and "abd". -/
theorem compare_same_type_natural_order_witness :
    Field.Compare ⟨"a", TInt, Value.int64 3⟩ ⟨"b", TInt, Value.int64 7⟩
        = Res.ret (-1, none) ∧
    Field.Compare ⟨"a", TUint, Value.uint64 9⟩ ⟨"b", TUint, Value.uint64 2⟩
        = Res.ret (1, none) ∧
    Field.Compare ⟨"a", TString, Value.string "abc"⟩ ⟨"b", TString, Value.string "abd"⟩
        = Res.ret (-1, none) ∧
    Field.Compare ⟨"a", TString, Value.string "abc"⟩ ⟨"a", TString, Value.string "abc"⟩
        = Res.ret (0, none) :=
  ⟨((compare_same_type_natural_order ⟨"a", TInt, Value.int64 3⟩
        ⟨"b", TInt, Value.int64 7⟩).1 3 7 rfl rfl rfl rfl).1 (by decide),
   ((compare_same_type_natural_order ⟨"a", TUint, Value.uint64 9⟩
        ⟨"b", TUint, Value.uint64 2⟩).2.1 9 2 rfl rfl rfl rfl).2.2 (by decide),
   ((compare_same_type_natural_order ⟨"a", TString, Value.string "abc"⟩
        ⟨"b", TString, Value.string "abd"⟩).2.2.1 "abc" "abd" rfl rfl rfl rfl).1
      (by decide),
   (compare_same_type_natural_order ⟨"a", TString, Value.string "abc"⟩
        ⟨"a", TString, Value.string "abc"⟩).2.2.2.2 rfl⟩

/-! ### Parsing fields -/

/-- Claim C11, as stated, fails.  `ParseType "int"` is `TFloat`, so
`ParseField "x" "int" "notanumber"` has type `TFloat`, not `TInt`, and its data is the
NaN, not the integer 0. -/
theorem parseField_int_notanumber_is_float :
    ParseField strconvDecimal "x" "int" "notanumber"
        = { Name := "x", Typ := TFloat, Data := Value.float64 nanBits } ∧
    (ParseField strconvDecimal "x" "int" "notanumber").Typ ≠ TInt ∧
    (ParseField strconvDecimal "x" "int" "notanumber").Data ≠ Value.int64 0 := by
  decide

/-- Claim C11, amended.  Whenever `strconv.ParseFloat` rejects "notanumber",
`ParseField "x" "int" "notanumber"` is the Field named "x" of the float type `TFloat`
whose data is the NaN of `math.NaN()`; the result is a Field, no error is produced. -/
theorem parseField_int_notanumber (sc : Strconv) (h : sc.ParseFloat "notanumber" = none) :
    ParseField sc "x" "int" "notanumber"
      = { Name := "x", Typ := TFloat, Data := Value.float64 nanBits } := by
  have ht : ParseType "int" = TFloat := by decide
  simp only [ParseField, ht, ParseValue, h, if_true]

/-- Witness for C11 (amended): the stand-in `strconvDecimal` rejects "notanumber". -/
theorem parseField_int_notanumber_witness :
    strconvDecimal.ParseFloat "notanumber" = none ∧
    ParseField strconvDecimal "x" "int" "notanumber"
      = { Name := "x", Typ := TFloat, Data := Value.float64 nanBits } :=
  ⟨by decide, parseField_int_notanumber strconvDecimal (by decide)⟩

/-! ### Fingerprints -/

theorem stringBytes_append (a b : String) :
    stringBytes (a ++ b) = stringBytes a ++ stringBytes b := by
  simp [stringBytes, String.data_append, List.flatMap_append]

theorem stringBytes_foldl_append (l : List String) (acc : String) :
    stringBytes (l.foldl (fun r x => r ++ x) acc)
      = stringBytes acc ++ (l.map stringBytes).flatten := by
  induction l generalizing acc with
  | nil => simp
  | cons x xs ih =>
    simp only [List.foldl_cons, List.map_cons, List.flatten_cons]
    rw [ih, stringBytes_append, List.append_assoc]

theorem stringBytes_join (l : List String) :
    stringBytes (String.join l) = (l.map stringBytes).flatten := by
  simp only [String.join]
  rw [stringBytes_foldl_append]
  rfl

theorem writeTags_flatten (h : HashObj) (tags : List Tag) :
    writeTags h tags = h ++ ((tags.map Tag.Data).map stringBytes).flatten := by
  induction tags generalizing h with
  | nil => simp [writeTags]
  | cons t ts ih =>
    simp only [writeTags, List.foldl_cons, List.map_cons, List.flatten_cons] at ih ⊢
    rw [ih, List.append_assoc]

theorem writeTags_eq (h : HashObj) (tags : List Tag) :
    writeTags h tags = h ++ stringBytes (String.join (tags.map Tag.Data)) := by
  rw [stringBytes_join, writeTags_flatten]

theorem poolGet_reset (choice : Nat) (pool : List HashObj) (h : AllReset pool) :
    (poolGet choice pool).1 = [] ∧ AllReset (poolGet choice pool).2 := by
  unfold poolGet
  cases hg : pool.get? choice with
  | none => exact ⟨rfl, h⟩
  | some x =>
    refine ⟨h x (List.get?_mem hg), fun y hy => h y ?_⟩
    exact (List.eraseIdx_sublist pool choice).subset hy

theorem allReset_put (pool : List HashObj) (h : AllReset pool) :
    AllReset (poolPut [] pool) := by
  intro x hx
  rcases List.mem_cons.mp hx with hx | hx
  · exact hx
  · exact h x hx

theorem sha1_spec (lib : HashLib) (choice : Nat) (m : Measure) (p : Pools)
    (h1 : AllReset p.sha1Pool) (h2 : AllReset p.md5Pool) :
    (m.SHA1 lib choice p).1 = lib.sha1Sum (stringBytes m.tagData) ∧
    AllReset (m.SHA1 lib choice p).2.sha1Pool ∧ AllReset (m.SHA1 lib choice p).2.md5Pool := by
  obtain ⟨hg, hr⟩ := poolGet_reset choice p.sha1Pool h1
  simp only [Measure.SHA1, Measure.tagData]
  refine ⟨?_, allReset_put _ hr, h2⟩
  rw [writeTags_eq, hg, List.nil_append]

theorem md5_spec (lib : HashLib) (choice : Nat) (m : Measure) (p : Pools)
    (h1 : AllReset p.sha1Pool) (h2 : AllReset p.md5Pool) :
    (m.MD5 lib choice p).1 = lib.md5Sum (stringBytes m.tagData) ∧
    AllReset (m.MD5 lib choice p).2.sha1Pool ∧ AllReset (m.MD5 lib choice p).2.md5Pool := by
  obtain ⟨hg, hr⟩ := poolGet_reset choice p.md5Pool h2
  simp only [Measure.MD5, Measure.tagData]
  refine ⟨?_, h1, allReset_put _ hr⟩
  rw [writeTags_eq, hg, List.nil_append]

theorem poolsAfter_reset (lib : HashLib) (calls : List HashCall) (p : Pools)
    (h1 : AllReset p.sha1Pool) (h2 : AllReset p.md5Pool) :
    AllReset (poolsAfter lib calls p).sha1Pool ∧ AllReset (poolsAfter lib calls p).md5Pool := by
  induction calls generalizing p with
  | nil => exact ⟨h1, h2⟩
  | cons c rest ih =>
    cases c with
    | sha1 choice m =>
      obtain ⟨_, ha, hb⟩ := sha1_spec lib choice m p h1 h2
      exact ih _ ha hb
    | md5 choice m =>
      obtain ⟨_, ha, hb⟩ := md5_spec lib choice m p h1 h2
      exact ih _ ha hb

theorem poolsAfter_empty_reset (lib : HashLib) (calls : List HashCall) :
    AllReset (poolsAfter lib calls ⟨[], []⟩).sha1Pool ∧
    AllReset (poolsAfter lib calls ⟨[], []⟩).md5Pool :=
  poolsAfter_reset lib calls ⟨[], []⟩ (fun _ h => absurd h (List.not_mem_nil _))
    (fun _ h => absurd h (List.not_mem_nil _))

/-- Claim C12.  After any sequence `calls` of earlier SHA1 and MD5 calls on the initially
empty pools, and whichever pooled object the pool hands out, `m.SHA1()` is the SHA-1
digest and `m.MD5()` the MD5 digest of the bytes of the concatenation of the Data strings
of `m.Tags` in sequence order.  Hence a Measure `m2` with the same concatenated tag data,
whatever its tag names, name, fields and time and whatever calls came before, has the
same SHA1 and the same MD5. -/
theorem fingerprint_is_digest_of_tag_data (lib : HashLib) (calls : List HashCall)
    (choice : Nat) (m : Measure) :
    (m.SHA1 lib choice (poolsAfter lib calls ⟨[], []⟩)).1
        = lib.sha1Sum (stringBytes (String.join (m.Tags.map Tag.Data))) ∧
    (m.MD5 lib choice (poolsAfter lib calls ⟨[], []⟩)).1
        = lib.md5Sum (stringBytes (String.join (m.Tags.map Tag.Data))) ∧
    (∀ (calls2 : List HashCall) (choice2 : Nat) (m2 : Measure),
      m2.tagData = m.tagData →
      (m2.SHA1 lib choice2 (poolsAfter lib calls2 ⟨[], []⟩)).1
          = (m.SHA1 lib choice (poolsAfter lib calls ⟨[], []⟩)).1 ∧
      (m2.MD5 lib choice2 (poolsAfter lib calls2 ⟨[], []⟩)).1
          = (m.MD5 lib choice (poolsAfter lib calls ⟨[], []⟩)).1) := by
  obtain ⟨ha, hb⟩ := poolsAfter_empty_reset lib calls
  have hs := (sha1_spec lib choice m _ ha hb).1
  have hm := (md5_spec lib choice m _ ha hb).1
  refine ⟨hs, hm, ?_⟩
  intro calls2 choice2 m2 heq
  obtain ⟨ha2, hb2⟩ := poolsAfter_empty_reset lib calls2
  rw [hs, hm, (sha1_spec lib choice2 m2 _ ha2 hb2).1, (md5_spec lib choice2 m2 _ ha2 hb2).1,
    heq]
  exact ⟨rfl, rfl⟩

/-- Witness for C12: two Measures that differ in name, tag names, fields and time and
split the same tag data "abcd" differently, the second fingerprinted after an earlier
call; the digest functions are stand-ins (identity and reversal). -/
theorem fingerprint_is_digest_of_tag_data_witness :
    (Measure.SHA1 ⟨fun b => b, List.reverse⟩ 0
        ⟨"n2", [⟨"x", "a"⟩, ⟨"y", "bcd"⟩], [⟨"f", TInt, Value.int64 1⟩], 7⟩
        (poolsAfter ⟨fun b => b, List.reverse⟩
          [HashCall.sha1 0 ⟨"n0", [⟨"t", "zzz"⟩], [], 0⟩] ⟨[], []⟩)).1
      = (Measure.SHA1 ⟨fun b => b, List.reverse⟩ 0 ⟨"n1", [⟨"k", "ab"⟩, ⟨"l", "cd"⟩], [], 0⟩
          (poolsAfter ⟨fun b => b, List.reverse⟩ [] ⟨[], []⟩)).1 :=
  ((fingerprint_is_digest_of_tag_data ⟨fun b => b, List.reverse⟩ [] 0
      ⟨"n1", [⟨"k", "ab"⟩, ⟨"l", "cd"⟩], [], 0⟩).2.2
    [HashCall.sha1 0 ⟨"n0", [⟨"t", "zzz"⟩], [], 0⟩] 0
    ⟨"n2", [⟨"x", "a"⟩, ⟨"y", "bcd"⟩], [⟨"f", TInt, Value.int64 1⟩], 7⟩ (by decide)).1

/-! ### Name normalisation -/

theorem asciiLower_facts (n : Nat) (h1 : 65 ≤ n) (h2 : n ≤ 90) :
    (Char.ofNat (n + 32)).toNat = n + 32 ∧ Char.ofNat (n + 32) ≠ ' ' := by
  interval_cases n <;> decide

theorem toLowerRune_facts (tbl : Char → Char) (ht : LowerTable tbl) (c : Char) :
    (c ≠ ' ' → toLowerRune tbl c ≠ ' ') ∧
    ¬ (65 ≤ (toLowerRune tbl c).toNat ∧ (toLowerRune tbl c).toNat ≤ 90) ∧
    toLowerRune tbl (toLowerRune tbl c) = toLowerRune tbl c := by
  by_cases hc : c.toNat < 128
  · by_cases hu : 65 ≤ c.toNat ∧ c.toNat ≤ 90
    · obtain ⟨hn, hs⟩ := asciiLower_facts c.toNat hu.1 hu.2
      have hl : toLowerRune tbl c = Char.ofNat (c.toNat + 32) := by
        simp [toLowerRune, hc, hu]
      rw [hl]
      refine ⟨fun _ => hs, ?_, ?_⟩
      · rw [hn]; omega
      · have h3 : (Char.ofNat (c.toNat + 32)).toNat < 128 := by rw [hn]; omega
        have h4 : ¬ (65 ≤ (Char.ofNat (c.toNat + 32)).toNat ∧
            (Char.ofNat (c.toNat + 32)).toNat ≤ 90) := by rw [hn]; omega
        simp only [toLowerRune, h3, h4, if_true, if_false]
    · have hl : toLowerRune tbl c = c := by
        simp only [toLowerRune, hc, hu, if_true, if_false]
      rw [hl]
      exact ⟨fun h => h, hu, hl⟩
  · have hl : toLowerRune tbl c = tbl c := by
      simp only [toLowerRune, hc, if_false]
    obtain ⟨h1, h2, h3⟩ := ht c (by omega)
    rw [hl]
    exact ⟨fun _ => h1, h2, h3⟩

theorem sanitized_data (tbl : Char → Char) (s : String) :
    (stringsToLower tbl (removeSpaces s)).data
      = (s.data.filter (fun c => decide (c ≠ ' '))).map (toLowerRune tbl) := rfl

theorem sanitized_no_space (tbl : Char → Char) (ht : LowerTable tbl) (s : String) :
    ' ' ∉ (stringsToLower tbl (removeSpaces s)).data := by
  rw [sanitized_data]
  intro h
  obtain ⟨c, hc, hcl⟩ := List.mem_map.mp h
  have hne : c ≠ ' ' := by
    have := (List.mem_filter.mp hc).2
    simpa using this
  exact (toLowerRune_facts tbl ht c).1 hne hcl

theorem sanitized_idempotent (tbl : Char → Char) (ht : LowerTable tbl) (s : String) :
    stringsToLower tbl (removeSpaces (stringsToLower tbl (removeSpaces s)))
      = stringsToLower tbl (removeSpaces s) := by
  have hns := sanitized_no_space tbl ht s
  have hf : (stringsToLower tbl (removeSpaces s)).data.filter (fun c => decide (c ≠ ' '))
      = (stringsToLower tbl (removeSpaces s)).data := by
    rw [List.filter_eq_self]
    intro a ha
    have : a ≠ ' ' := fun h => hns (h ▸ ha)
    simpa using this
  have hd : (stringsToLower tbl (removeSpaces (stringsToLower tbl (removeSpaces s)))).data
      = (stringsToLower tbl (removeSpaces s)).data := by
    rw [sanitized_data tbl (stringsToLower tbl (removeSpaces s)), hf, sanitized_data,
      List.map_map]
    apply List.map_congr_left
    intro c _
    exact (toLowerRune_facts tbl ht c).2.2
  exact String.ext hd

theorem lowerTable_id : LowerTable id := by
  intro c hc
  have h1 : ¬ c.toNat < 128 := by omega
  refine ⟨?_, ?_, ?_⟩
  · intro h
    have h2 : c.toNat = 32 := by
      have : id c = ' ' := h
      simp only [id] at this
      rw [this]
      rfl
    omega
  · simp only [id]
    omega
  · simp only [toLowerRune, id, h1, if_false]

/-- Claim C15, as stated, fails.  The filter removes the space character only: for the
name "A", tab, "B c" the forwarded name is "a", tab, "bc", which still holds a tab, a
whitespace character. -/
theorem nameSanity_keeps_tab :
    nameSanityAdapter id traceFeedback ⟨"A\tB c", [], [], 0⟩ traceWriter []
        = (Res.ret (), [Event.write ⟨"a\tbc", [], [], 0⟩]) ∧
    (stringsToLower id (removeSpaces "A\tB c")).data.any Char.isWhitespace = true := by
  decide

/-- Claim C15, amended.  For every Measure `m` the adapter of `NewNameSanityFilter`
forwards (writes to its output) the record whose tags, fields and time are those of `m`
and whose name is `m.Name` with every space character U+0020 removed and then
lowercased by `strings.ToLower`; other whitespace, such as tab and newline, is kept.
With a case table as that of the library (`LowerTable`), the forwarded name contains no
space character and no ASCII capital letter, each of its characters is left unchanged by
lowercasing, and normalising it again gives the same name. -/
theorem nameSanity_forwards_normalised {σ : Type} (tbl : Char → Char)
    (ht : LowerTable tbl) (f : Feedback σ) (m : Measure) (mw : MeasureWriter σ) :
    nameSanityAdapter tbl f m mw
        = (writeMeasure mw
            { Name := stringsToLower tbl (removeSpaces m.Name), Tags := m.Tags,
              Flds := m.Flds, Time := m.Time } >>= fun _ => pure ()) ∧
    (stringsToLower tbl (removeSpaces m.Name)).data
        = (m.Name.data.filter (fun c => decide (c ≠ ' '))).map (toLowerRune tbl) ∧
    ' ' ∉ (stringsToLower tbl (removeSpaces m.Name)).data ∧
    (∀ c ∈ (stringsToLower tbl (removeSpaces m.Name)).data,
        ¬ (65 ≤ c.toNat ∧ c.toNat ≤ 90) ∧ toLowerRune tbl c = c) ∧
    stringsToLower tbl (removeSpaces (stringsToLower tbl (removeSpaces m.Name)))
        = stringsToLower tbl (removeSpaces m.Name) := by
  refine ⟨rfl, rfl, sanitized_no_space tbl ht m.Name, ?_,
    sanitized_idempotent tbl ht m.Name⟩
  intro c hc
  rw [sanitized_data] at hc
  obtain ⟨d, _, hd⟩ := List.mem_map.mp hc
  rw [← hd]
  exact ⟨(toLowerRune_facts tbl ht d).2.1, (toLowerRune_facts tbl ht d).2.2⟩

/-- Witness for C15 (amended): the identity case table and the name "My Name", whose
normal form is "myname". -/
theorem nameSanity_forwards_normalised_witness :
    LowerTable id ∧
    nameSanityAdapter id traceFeedback ⟨"My Name", [⟨"k", "v"⟩], [], 5⟩ traceWriter []
        = (Res.ret (), [Event.write ⟨"myname", [⟨"k", "v"⟩], [], 5⟩]) ∧
    stringsToLower id (removeSpaces (stringsToLower id (removeSpaces "My Name")))
        = stringsToLower id (removeSpaces "My Name") :=
  ⟨lowerTable_id, by decide,
    (nameSanity_forwards_normalised id lowerTable_id traceFeedback
      ⟨"My Name", [⟨"k", "v"⟩], [], 5⟩ traceWriter).2.2.2.2⟩

/-! ### The filter worker -/

theorem filterLoop_recording (fin : Option (FinalizeAdapterFn World))
    (mw : MeasureWriter World) (rs : List ReadResult) :
    ∀ (fuel : Nat) (maps : List (AList (fun _ : String => Nat))) (tr : Trace),
      rs.length < fuel →
      filterLoop recordingAdapter fin worldFeedback scriptedReader mw fuel ⟨rs, maps, tr⟩
        = runFinalizer fin worldFeedback mw ⟨[], maps, tr ++ rs.map filterEvent⟩ := by
  induction rs with
  | nil =>
    intro fuel maps tr h
    cases fuel with
    | zero => exact absurd h (Nat.lt_irrefl 0)
    | succ n =>
      rw [List.map_nil, List.append_nil]
      cases fin <;> rfl
  | cons x rest ih =>
    intro fuel maps tr h
    cases fuel with
    | zero => exact absurd h (Nat.not_lt_zero _)
    | succ n =>
      have hn : rest.length < n := by
        simp only [List.length_cons] at h
        omega
      have hrw : tr ++ (x :: rest).map filterEvent
          = (tr ++ [filterEvent x]) ++ rest.map filterEvent := by simp
      rw [hrw, ← ih n maps (tr ++ [filterEvent x]) hn]
      cases x <;> rfl

theorem filterWorker_recording (withFinalizer : Bool) (fuel : Nat) (rs : List ReadResult)
    (maps : List (AList (fun _ : String => Nat))) (tr : Trace) (h : rs.length < fuel)
    (pw : PipeWriterI World) (mw : MeasureWriter World)
    (hpw : ∀ w : World,
      pw.Close w = (Res.ret none, { w with trace := w.trace ++ [Event.pipeClose] })) :
    filterWorker fuel recordingAdapter
        (if withFinalizer then some recordingFinalizer else none)
        worldFeedback scriptedReader pw mw ⟨rs, maps, tr⟩
      = (Res.ret (),
          ⟨[], maps, tr ++ rs.map filterEvent
            ++ (if withFinalizer then [Event.finalizer] else []) ++ [Event.pipeClose]⟩) := by
  simp only [filterWorker, Go.defer]
  rw [filterLoop_recording _ mw rs fuel maps tr h]
  cases withFinalizer
  · simp [runFinalizer, hpw, pure, Go.pure]
  · simp [runFinalizer, recordingFinalizer, emitW, hpw]

theorem filterEvent_ne_close (r : ReadResult) :
    filterEvent r ≠ Event.pipeClose ∧ filterEvent r ≠ Event.finalizer := by
  cases r <;> exact ⟨fun h => Event.noConfusion h, fun h => Event.noConfusion h⟩

theorem count_filterEvents (rs : List ReadResult) :
    (rs.map filterEvent).count Event.pipeClose = 0 ∧
    (rs.map filterEvent).count Event.finalizer = 0 := by
  constructor
  · apply List.count_eq_zero.mpr
    intro hm
    obtain ⟨r, _, hr⟩ := List.mem_map.mp hm
    exact (filterEvent_ne_close r).1 hr
  · apply List.count_eq_zero.mpr
    intro hm
    obtain ⟨r, _, hr⟩ := List.mem_map.mp hm
    exact (filterEvent_ne_close r).2 hr

/-- Claim C13.  Take the filter built by `NewFilter` from the recording adapter and,
optionally, the recording finalizer, and invoke it (recording feedback, the worker
followed to its end) on an upstream that yields the finite sequence `rs` of read results
(records and non-end-of-stream errors) and then end-of-stream, with enough loop fuel.
The invocation returns a reader and a nil error, the upstream is used up, and the trace is:
the pipe, the `go`, then for each read result in read order one adapter call with that
record or one feedback call for that error, then the finalizer call when one is
registered, then the closing of the pipe writer.  The pipe writer is closed exactly once
and a registered finalizer is called exactly once. -/
theorem newFilter_worker_trace (withFinalizer : Bool) (fuel : Nat) (rs : List ReadResult)
    (maps : List (AList (fun _ : String => Nat))) (h : rs.length < fuel) :
    ∃ (run : FilterFn World) (mr : MeasureReader World),
      NewFilter (worldRuntime fuel) (some recordingAdapter)
          (if withFinalizer then some recordingFinalizer else none) = (some run, none) ∧
      (run worldFeedback scriptedReader ⟨rs, maps, []⟩).1 = Res.ret (mr, none) ∧
      (run worldFeedback scriptedReader ⟨rs, maps, []⟩).2
        = ⟨[], maps, [Event.pipe, Event.go] ++ rs.map filterEvent
            ++ (if withFinalizer then [Event.finalizer] else []) ++ [Event.pipeClose]⟩ ∧
      ((run worldFeedback scriptedReader ⟨rs, maps, []⟩).2.trace.count Event.pipeClose = 1) ∧
      ((run worldFeedback scriptedReader ⟨rs, maps, []⟩).2.trace.count Event.finalizer
        = if withFinalizer then 1 else 0) := by
  have key : (filterRun (worldRuntime fuel) recordingAdapter
        (if withFinalizer then some recordingFinalizer else none) (worldRuntime fuel).Pipe
        (NewWriter (worldRuntime fuel)) (NewReader (worldRuntime fuel))
        worldFeedback scriptedReader ⟨rs, maps, []⟩).2
      = ⟨[], maps, [Event.pipe, Event.go] ++ rs.map filterEvent
          ++ (if withFinalizer then [Event.finalizer] else []) ++ [Event.pipeClose]⟩ := by
    show (filterWorker fuel recordingAdapter _ worldFeedback scriptedReader _ _
        ⟨rs, maps, [Event.pipe, Event.go]⟩).2 = _
    rw [filterWorker_recording withFinalizer fuel rs maps _ h _ _ (fun w => rfl)]
  refine ⟨_, _, rfl, rfl, key, ?_, ?_⟩
  · rw [key]
    obtain ⟨hc, _⟩ := count_filterEvents rs
    cases withFinalizer <;> simp [List.count_append, hc, List.count_cons]
  · rw [key]
    obtain ⟨_, hf⟩ := count_filterEvents rs
    cases withFinalizer <;> simp [List.count_append, hf, List.count_cons]

/-- Witness for C13: a record, a read error, a record, then end-of-stream, with a
finalizer. -/
theorem newFilter_worker_trace_witness :
    ∃ (run : FilterFn World),
      NewFilter (worldRuntime 4) (some recordingAdapter) (some recordingFinalizer)
          = (some run, none) ∧
      (run worldFeedback scriptedReader
          ⟨[ReadResult.record ⟨"a", [], [], 1⟩, ReadResult.fail "bad",
            ReadResult.record ⟨"b", [], [], 2⟩], [], []⟩).2.trace
        = [Event.pipe, Event.go, Event.adapter ⟨"a", [], [], 1⟩,
            Event.feedback "applierFilter error on read: %v" [Arg.error (Error.New "bad")],
            Event.adapter ⟨"b", [], [], 2⟩, Event.finalizer, Event.pipeClose] := by
  obtain ⟨run, _, hnew, _, htr, _, _⟩ :=
    newFilter_worker_trace true 4
      [ReadResult.record ⟨"a", [], [], 1⟩, ReadResult.fail "bad",
        ReadResult.record ⟨"b", [], [], 2⟩] [] (by decide)
  exact ⟨run, hnew, by rw [htr]; rfl⟩

/-! ### The counting filter -/

theorem measureCountAdapter_step (a : Nat) (f : Feedback World) (m : Measure)
    (up : List ReadResult) (maps : List (AList (fun _ : String => Nat))) (tr : Trace)
    (ha : a < maps.length) :
    measureCountAdapter worldHeap a f m worldWriter ⟨up, maps, tr⟩
      = (Res.ret (), ⟨up, maps.set a (bumpMap (maps.getD a ∅) m.Name),
          tr ++ [Event.write m]⟩) := by
  cases hl : (maps.getD a ∅).lookup m.Name with
  | none =>
    have h1 : measureCountAdapter worldHeap a f m worldWriter ⟨up, maps, tr⟩
        = (Res.ret (), ⟨up,
            (maps.set a ((maps.getD a ∅).insert m.Name 0)).set a
              (((maps.set a ((maps.getD a ∅).insert m.Name 0)).getD a ∅).insert m.Name
                (((((maps.set a ((maps.getD a ∅).insert m.Name 0)).getD a ∅).lookup
                  m.Name).getD 0 + 1) % 2 ^ 64)),
            tr ++ [Event.write m]⟩) := by
      simp only [measureCountAdapter, worldHeap, World.mapAt, Go.run_bind, hl]
      rfl
    rw [h1]
    have hg : (maps.set a ((maps.getD a ∅).insert m.Name 0)).getD a ∅
        = (maps.getD a ∅).insert m.Name 0 := by
      simp [List.getElem?_set_self ha]
    rw [hg, List.set_set, AList.lookup_insert]
    simp only [bumpMap, hl, Option.getD_some]
  | some v =>
    have h1 : measureCountAdapter worldHeap a f m worldWriter ⟨up, maps, tr⟩
        = (Res.ret (), ⟨up, maps.set a ((maps.getD a ∅).insert m.Name ((v + 1) % 2 ^ 64)),
            tr ++ [Event.write m]⟩) := by
      simp only [measureCountAdapter, worldHeap, World.mapAt, Go.run_bind, hl, pure, Go.pure]
      rfl
    rw [h1]
    simp only [bumpMap, hl]

theorem bytesCompare_le_trans (a b c : List Nat) (h1 : bytesCompare a b ≠ 1)
    (h2 : bytesCompare b c ≠ 1) : bytesCompare a c ≠ 1 := by
  induction a generalizing b c with
  | nil => cases c <;> simp [bytesCompare]
  | cons x xs ih =>
    cases b with
    | nil => simp [bytesCompare] at h1
    | cons y ys =>
      cases c with
      | nil => simp [bytesCompare] at h2
      | cons z zs =>
        simp only [bytesCompare] at h1 h2 ⊢
        by_cases hxy : x < y
        · have hyz : ¬ z < y := by
            intro hzy
            simp [hzy, Nat.lt_asymm hzy] at h2
          have hxz : x < z := by omega
          simp [hxz]
        · by_cases hyx : y < x
          · simp [hxy, hyx] at h1
          · have hxy2 : x = y := by omega
            subst hxy2
            simp only [Nat.lt_irrefl, if_false] at h1
            by_cases hxz : x < z
            · simp [hxz]
            · by_cases hzx : z < x
              · simp [hxz, hzx] at h2
              · simp only [hxz, hzx, if_false] at h2 ⊢
                exact ih ys zs h1 h2

theorem stringLE_total (a b : String) : stringLE a b ∨ stringLE b a := by
  unfold stringLE
  by_cases h : bytesCompare (stringBytes a) (stringBytes b) = 1
  · right
    rw [bytesCompare_swap, h]
    decide
  · exact Or.inl h

theorem stringLE_trans (a b c : String) (h1 : stringLE a b) (h2 : stringLE b c) :
    stringLE a c :=
  bytesCompare_le_trans _ _ _ h1 h2

theorem sortStrings_sorted (keys : List String) : List.Sorted stringLE (sortStrings keys) := by
  haveI : IsTotal String stringLE := ⟨stringLE_total⟩
  haveI : IsTrans String stringLE := ⟨stringLE_trans⟩
  exact List.sorted_insertionSort stringLE keys

theorem sortStrings_perm (keys : List String) : (sortStrings keys).Perm keys :=
  List.perm_insertionSort stringLE keys

theorem lookup_bumpMap (c : AList (fun _ : String => Nat)) (k j : String) :
    (bumpMap c k).lookup j
      = if j = k then some (((c.lookup k).getD 0 + 1) % 2 ^ 64) else c.lookup j := by
  unfold bumpMap
  cases h : c.lookup k with
  | none =>
    by_cases hj : j = k
    · subst hj
      simp [AList.lookup_insert]
    · simp [hj, AList.lookup_insert_ne hj]
  | some v =>
    by_cases hj : j = k
    · subst hj
      simp [AList.lookup_insert]
    · simp [hj, AList.lookup_insert_ne hj]

theorem holdsTotals_empty : HoldsTotals ∅ [] := by
  intro k
  simp [AList.lookup_empty]

theorem holdsTotals_bump (c : AList (fun _ : String => Nat)) (prev : List String)
    (n : String) (h : HoldsTotals c prev) : HoldsTotals (bumpMap c n) (prev ++ [n]) := by
  intro k
  rw [lookup_bumpMap]
  by_cases hk : k = n
  · subst hk
    have hc : (prev ++ [k]).count k = prev.count k + 1 := by simp
    have hg : (c.lookup k).getD 0 = prev.count k % 2 ^ 64 := by
      rw [h k]
      by_cases h0 : prev.count k = 0
      · simp [h0]
      · simp [h0]
    rw [hc, hg, if_pos rfl, if_neg (Nat.succ_ne_zero _)]
    congr 1
    omega
  · have hc : (prev ++ [n]).count k = prev.count k := by
      simp [List.count_append, List.count_cons, Ne.symm hk]
    rw [if_neg hk, hc]
    exact h k

theorem holdsTotals_foldl (ms : List Measure) :
    ∀ (c : AList (fun _ : String => Nat)) (prev : List String), HoldsTotals c prev →
      HoldsTotals (ms.foldl (fun acc m => bumpMap acc m.Name) c)
        (prev ++ ms.map Measure.Name) := by
  induction ms with
  | nil =>
    intro c prev h
    simpa using h
  | cons m rest ih =>
    intro c prev h
    have := ih (bumpMap c m.Name) (prev ++ [m.Name]) (holdsTotals_bump c prev m.Name h)
    simpa [List.append_assoc] using this

theorem holdsTotals_keys (c : AList (fun _ : String => Nat)) (prev : List String)
    (h : HoldsTotals c prev) (k : String) : k ∈ c.keys ↔ k ∈ prev := by
  rw [← AList.mem_keys, ← AList.lookup_isSome, h k]
  by_cases h0 : prev.count k = 0
  · simp [h0, List.count_eq_zero.mp h0]
  · have : k ∈ prev := by
      by_contra hn
      exact h0 (List.count_eq_zero.mpr hn)
    simp [h0, this]

theorem set_getD_self (maps : List (AList (fun _ : String => Nat))) (a : Nat)
    (ha : a < maps.length) : maps.set a (maps.getD a ∅) = maps := by
  apply List.ext_getElem?
  intro i
  by_cases hi : i = a
  · subst hi
    simp [List.getElem?_set_self ha, List.getElem?_eq_getElem ha]
  · simp [List.getElem?_set, Ne.symm hi]

theorem getD_set_self (maps : List (AList (fun _ : String => Nat))) (a : Nat)
    (c : AList (fun _ : String => Nat)) (ha : a < maps.length) :
    (maps.set a c).getD a ∅ = c := by
  simp [List.getElem?_set_self ha]

theorem reportTotals_world (a : Nat) (ks : List String) :
    ∀ (up : List ReadResult) (maps : List (AList (fun _ : String => Nat))) (tr : Trace),
      reportTotals worldHeap a worldFeedback ks ⟨up, maps, tr⟩
        = (Res.ret (), ⟨up, maps, tr ++ ks.map (totalEvent (maps.getD a ∅))⟩) := by
  induction ks with
  | nil =>
    intro up maps tr
    simp [reportTotals, pure, Go.pure]
  | cons k rest ih =>
    intro up maps tr
    have hrw : tr ++ (k :: rest).map (totalEvent (maps.getD a ∅))
        = (tr ++ [totalEvent (maps.getD a ∅) k])
            ++ rest.map (totalEvent (maps.getD a ∅)) := by simp
    rw [hrw, ← ih up maps (tr ++ [totalEvent (maps.getD a ∅) k])]
    rfl

theorem countLoop_world (a : Nat) (ms : List Measure) :
    ∀ (fuel : Nat) (maps : List (AList (fun _ : String => Nat))) (tr : Trace),
      a < maps.length → ms.length < fuel →
      filterLoop (measureCountAdapter worldHeap a)
          (some (measureCountFinalizer worldHeap a)) worldFeedback scriptedReader
          worldWriter fuel ⟨ms.map ReadResult.record, maps, tr⟩
        = measureCountFinalizer worldHeap a worldFeedback worldWriter
            ⟨[], maps.set a (totalsAfter (maps.getD a ∅) ms), tr ++ ms.map Event.write⟩ := by
  induction ms with
  | nil =>
    intro fuel maps tr ha h
    cases fuel with
    | zero => exact absurd h (Nat.lt_irrefl 0)
    | succ n =>
      simp only [totalsAfter, List.foldl_nil, List.map_nil, List.append_nil]
      rw [set_getD_self maps a ha]
      rfl
  | cons m rest ih =>
    intro fuel maps tr ha h
    cases fuel with
    | zero => exact absurd h (Nat.not_lt_zero _)
    | succ n =>
      have hn : rest.length < n := by
        simp only [List.length_cons] at h
        omega
      have hstep : filterLoop (measureCountAdapter worldHeap a)
            (some (measureCountFinalizer worldHeap a)) worldFeedback scriptedReader
            worldWriter (n + 1) ⟨(m :: rest).map ReadResult.record, maps, tr⟩
          = (measureCountAdapter worldHeap a worldFeedback m worldWriter >>= fun _ =>
              filterLoop (measureCountAdapter worldHeap a)
                (some (measureCountFinalizer worldHeap a)) worldFeedback scriptedReader
                worldWriter n) ⟨rest.map ReadResult.record, maps, tr⟩ := rfl
      rw [hstep, Go.run_bind_ret _ _ _ _ _
        (measureCountAdapter_step a worldFeedback m _ maps tr ha)]
      have ha1 : a < (maps.set a (bumpMap (maps.getD a ∅) m.Name)).length := by
        rw [List.length_set]
        exact ha
      rw [ih n _ (tr ++ [Event.write m]) ha1 hn, getD_set_self maps a _ ha, List.set_set]
      simp [totalsAfter, List.append_assoc]

theorem countFinalizer_world (a : Nat) (up : List ReadResult)
    (maps : List (AList (fun _ : String => Nat))) (tr : Trace) :
    measureCountFinalizer worldHeap a worldFeedback worldWriter ⟨up, maps, tr⟩
      = (Res.ret (), ⟨up, maps,
          tr ++ (sortStrings (maps.getD a ∅).keys).map (totalEvent (maps.getD a ∅))⟩) := by
  rw [← reportTotals_world a _ up maps tr]
  rfl

/-- One invocation of the counting filter whose map is at address `a`, on the stream of
records `ms`: the world it leaves. -/
theorem countFilter_invocation (a fuel : Nat) (ms : List Measure)
    (maps : List (AList (fun _ : String => Nat))) (tr : Trace) (ha : a < maps.length)
    (h : ms.length < fuel) :
    (filterRun (worldRuntime fuel) (measureCountAdapter worldHeap a)
        (some (measureCountFinalizer worldHeap a)) (worldRuntime fuel).Pipe
        (NewWriter (worldRuntime fuel)) (NewReader (worldRuntime fuel))
        worldFeedback scriptedReader ⟨ms.map ReadResult.record, maps, tr⟩).2
      = ⟨[], maps.set a (totalsAfter (maps.getD a ∅) ms),
          tr ++ [Event.pipe, Event.go] ++ ms.map Event.write
            ++ (sortStrings (totalsAfter (maps.getD a ∅) ms).keys).map
                (totalEvent (totalsAfter (maps.getD a ∅) ms))
            ++ [Event.pipeClose]⟩ := by
  have ha1 : a < (maps.set a (totalsAfter (maps.getD a ∅) ms)).length := by
    rw [List.length_set]
    exact ha
  show (Go.defer (do emitW Event.pipeClose; pure none)
      (filterLoop (measureCountAdapter worldHeap a)
        (some (measureCountFinalizer worldHeap a)) worldFeedback scriptedReader
        worldWriter fuel)
      ⟨ms.map ReadResult.record, maps, tr ++ [Event.pipe] ++ [Event.go]⟩).2 = _
  simp only [Go.defer]
  rw [countLoop_world a ms fuel maps _ ha h, countFinalizer_world,
    getD_set_self maps a _ ha]
  simp [emitW, Go.run_bind, List.append_assoc, pure, Go.pure]

theorem totals_summary (c : AList (fun _ : String => Nat)) (all : List String)
    (hT : HoldsTotals c all) (hlen : all.length < 2 ^ 64) :
    (sortStrings c.keys).map (totalEvent c) = (sortStrings c.keys).map (totalOf all) ∧
    List.Sorted stringLE (sortStrings c.keys) ∧ (sortStrings c.keys).Nodup ∧
    (∀ k : String, k ∈ sortStrings c.keys ↔ k ∈ all) ∧
    ((sortStrings c.keys).map (fun k => all.count k)).sum = all.length := by
  have hmem : ∀ k : String, k ∈ sortStrings c.keys ↔ k ∈ all := by
    intro k
    rw [(sortStrings_perm c.keys).mem_iff]
    exact holdsTotals_keys c all hT k
  have hnd : (sortStrings c.keys).Nodup :=
    (sortStrings_perm c.keys).nodup_iff.mpr c.keys_nodup
  refine ⟨?_, sortStrings_sorted c.keys, hnd, hmem, ?_⟩
  · apply List.map_congr_left
    intro k hk
    have hka : k ∈ all := (hmem k).mp hk
    have h0 : all.count k ≠ 0 := fun h => (List.count_eq_zero.mp h) hka
    have hle : all.count k ≤ all.length := List.count_le_length _ _
    have hmod : all.count k % 2 ^ 64 = all.count k := Nat.mod_eq_of_lt (by omega)
    simp only [totalEvent, totalOf, hT k, if_neg h0, Option.getD_some, hmod]
  · have hperm : (sortStrings c.keys).Perm all.dedup :=
      (List.perm_ext_iff_of_nodup hnd (List.nodup_dedup all)).mpr
        (fun k => by rw [hmem k, List.mem_dedup])
    rw [(hperm.map (fun k => all.count k)).sum_eq]
    exact List.sum_map_count_dedup_eq_length all

/-- Claim C14.  A filter freshly made by `NewMeasureCountFilter` (on any heap `hs`) and
invoked once on a stream of fewer than 2^64 records `ms`, the worker followed to
end-of-stream: every record is forwarded unchanged, in order (the `write` events), and
then the finalizer emits one feedback message "Total %v records: %v" per name `k` of a
list `ks`, carrying `k` and the number of records of `ms` named `k`; `ks` is in
ascending byte-lexicographic order, has no repetition and consists of exactly the names
occurring in `ms`, and the reported counts sum to the length of `ms`. -/
theorem measureCountFilter_totals (fuel : Nat) (ms : List Measure)
    (hs : List (AList (fun _ : String => Nat))) (hfuel : ms.length < fuel)
    (hlen : ms.length < 2 ^ 64) :
    ∃ (run : FilterFn World) (mr : MeasureReader World) (ks : List String),
      NewMeasureCountFilter (worldRuntime fuel) worldHeap ⟨ms.map ReadResult.record, hs, []⟩
        = (Res.ret (some run, none), ⟨ms.map ReadResult.record, hs ++ [∅], []⟩) ∧
      (run worldFeedback scriptedReader ⟨ms.map ReadResult.record, hs ++ [∅], []⟩).1
        = Res.ret (mr, none) ∧
      (run worldFeedback scriptedReader ⟨ms.map ReadResult.record, hs ++ [∅], []⟩).2.trace
        = [Event.pipe, Event.go] ++ ms.map Event.write
            ++ ks.map (totalOf (ms.map Measure.Name)) ++ [Event.pipeClose] ∧
      List.Sorted stringLE ks ∧ ks.Nodup ∧
      (∀ k : String, k ∈ ks ↔ k ∈ ms.map Measure.Name) ∧
      (ks.map (fun k => (ms.map Measure.Name).count k)).sum = ms.length := by
  have ha : hs.length < (hs ++ [∅]).length := by simp
  have hg : (hs ++ [(∅ : AList (fun _ : String => Nat))]).getD hs.length ∅ = ∅ := by simp
  have key := countFilter_invocation hs.length fuel ms (hs ++ [∅]) [] ha hfuel
  rw [hg] at key
  have hT : HoldsTotals (totalsAfter ∅ ms) (ms.map Measure.Name) := by
    have := holdsTotals_foldl ms ∅ [] holdsTotals_empty
    simpa [totalsAfter] using this
  have hl : (ms.map Measure.Name).length < 2 ^ 64 := by simpa using hlen
  obtain ⟨hev, hsorted, hnd, hmem, hsum⟩ := totals_summary _ _ hT hl
  refine ⟨filterRun (worldRuntime fuel) (measureCountAdapter worldHeap hs.length)
      (some (measureCountFinalizer worldHeap hs.length)) (worldRuntime fuel).Pipe
      (NewWriter (worldRuntime fuel)) (NewReader (worldRuntime fuel)), _,
    sortStrings (totalsAfter ∅ ms).keys, rfl, rfl, ?_, hsorted, hnd, hmem, ?_⟩
  · rw [key, ← hev]
    simp
  · simpa using hsum

/-- Witness for C14: the stream b, a, b on an empty heap, with fuel 4. -/
theorem measureCountFilter_totals_witness :
    ∃ (run : FilterFn World) (mr : MeasureReader World) (ks : List String),
      NewMeasureCountFilter (worldRuntime 4) worldHeap
          ⟨[(⟨"b", [], [], 1⟩ : Measure), ⟨"a", [], [], 2⟩, ⟨"b", [], [], 3⟩].map
            ReadResult.record, [], []⟩
        = (Res.ret (some run, none),
            ⟨[(⟨"b", [], [], 1⟩ : Measure), ⟨"a", [], [], 2⟩, ⟨"b", [], [], 3⟩].map
              ReadResult.record, [] ++ [∅], []⟩) ∧
      (run worldFeedback scriptedReader
          ⟨[(⟨"b", [], [], 1⟩ : Measure), ⟨"a", [], [], 2⟩, ⟨"b", [], [], 3⟩].map
            ReadResult.record, [] ++ [∅], []⟩).1 = Res.ret (mr, none) ∧
      (run worldFeedback scriptedReader
          ⟨[(⟨"b", [], [], 1⟩ : Measure), ⟨"a", [], [], 2⟩, ⟨"b", [], [], 3⟩].map
            ReadResult.record, [] ++ [∅], []⟩).2.trace
        = [Event.pipe, Event.go]
            ++ [(⟨"b", [], [], 1⟩ : Measure), ⟨"a", [], [], 2⟩, ⟨"b", [], [], 3⟩].map
              Event.write
            ++ ks.map (totalOf
                ([(⟨"b", [], [], 1⟩ : Measure), ⟨"a", [], [], 2⟩, ⟨"b", [], [], 3⟩].map
                  Measure.Name))
            ++ [Event.pipeClose] ∧
      List.Sorted stringLE ks ∧ ks.Nodup ∧
      (∀ k : String, k ∈ ks ↔
        k ∈ [(⟨"b", [], [], 1⟩ : Measure), ⟨"a", [], [], 2⟩, ⟨"b", [], [], 3⟩].map
          Measure.Name) ∧
      (ks.map (fun k =>
          ([(⟨"b", [], [], 1⟩ : Measure), ⟨"a", [], [], 2⟩, ⟨"b", [], [], 3⟩].map
            Measure.Name).count k)).sum
        = [(⟨"b", [], [], 1⟩ : Measure), ⟨"a", [], [], 2⟩, ⟨"b", [], [], 3⟩].length :=
  measureCountFilter_totals 4 [⟨"b", [], [], 1⟩, ⟨"a", [], [], 2⟩, ⟨"b", [], [], 3⟩] []
    (by decide) (by decide)

/-- Claim C19.  The map of totals is made once, when `NewMeasureCountFilter` is called,
and the Filter value it returns uses that map in every invocation.  Invoke the Filter on
a stream `ms1` and then, in the world the first invocation left, on another stream
`ms2`: the finalizer of the first invocation reports the totals of `ms1`, and the
finalizer of the second reports, for exactly the names occurring in `ms1` or `ms2` (in
ascending order, each once), the number of records of that name in `ms1` and `ms2`
together. -/
theorem measureCountFilter_counter_is_shared (fuel : Nat) (ms1 ms2 : List Measure)
    (hs : List (AList (fun _ : String => Nat))) (h1 : ms1.length < fuel)
    (h2 : ms2.length < fuel) (hlen : ms1.length + ms2.length < 2 ^ 64) :
    ∃ (run : FilterFn World) (ks1 ks2 : List String),
      NewMeasureCountFilter (worldRuntime fuel) worldHeap
          ⟨ms1.map ReadResult.record, hs, []⟩
        = (Res.ret (some run, none), ⟨ms1.map ReadResult.record, hs ++ [∅], []⟩) ∧
      (run worldFeedback scriptedReader ⟨ms1.map ReadResult.record, hs ++ [∅], []⟩).2.trace
        = [Event.pipe, Event.go] ++ ms1.map Event.write
            ++ ks1.map (totalOf (ms1.map Measure.Name)) ++ [Event.pipeClose] ∧
      (run worldFeedback scriptedReader
          ⟨ms2.map ReadResult.record,
            (run worldFeedback scriptedReader
              ⟨ms1.map ReadResult.record, hs ++ [∅], []⟩).2.maps,
            (run worldFeedback scriptedReader
              ⟨ms1.map ReadResult.record, hs ++ [∅], []⟩).2.trace⟩).2.trace
        = (run worldFeedback scriptedReader
              ⟨ms1.map ReadResult.record, hs ++ [∅], []⟩).2.trace
            ++ [Event.pipe, Event.go] ++ ms2.map Event.write
            ++ ks2.map (totalOf (ms1.map Measure.Name ++ ms2.map Measure.Name))
            ++ [Event.pipeClose] ∧
      (∀ k : String, k ∈ ks2 ↔ k ∈ ms1.map Measure.Name ++ ms2.map Measure.Name) ∧
      List.Sorted stringLE ks2 ∧ ks2.Nodup := by
  have ha : hs.length < (hs ++ [∅]).length := by simp
  have hg : (hs ++ [(∅ : AList (fun _ : String => Nat))]).getD hs.length ∅ = ∅ := by simp
  have key1 := countFilter_invocation hs.length fuel ms1 (hs ++ [∅]) [] ha h1
  rw [hg] at key1
  have hT1 : HoldsTotals (totalsAfter ∅ ms1) ([] ++ ms1.map Measure.Name) :=
    holdsTotals_foldl ms1 ∅ [] holdsTotals_empty
  have hT1b : HoldsTotals (totalsAfter ∅ ms1) (ms1.map Measure.Name) := by
    simpa using hT1
  have hl1 : (ms1.map Measure.Name).length < 2 ^ 64 := by
    simp only [List.length_map]
    omega
  obtain ⟨hev1, _, _, _, _⟩ := totals_summary _ _ hT1b hl1
  have ha1 : hs.length < ((hs ++ [∅]).set hs.length (totalsAfter ∅ ms1)).length := by
    rw [List.length_set]
    exact ha
  have key2 := countFilter_invocation hs.length fuel ms2
    ((hs ++ [∅]).set hs.length (totalsAfter ∅ ms1))
    ([] ++ [Event.pipe, Event.go] ++ ms1.map Event.write
      ++ (sortStrings (totalsAfter ∅ ms1).keys).map (totalEvent (totalsAfter ∅ ms1))
      ++ [Event.pipeClose]) ha1 h2
  rw [getD_set_self _ _ _ ha] at key2
  have hT2 : HoldsTotals (totalsAfter (totalsAfter ∅ ms1) ms2)
      (ms1.map Measure.Name ++ ms2.map Measure.Name) :=
    holdsTotals_foldl ms2 _ _ hT1b
  have hl2 : (ms1.map Measure.Name ++ ms2.map Measure.Name).length < 2 ^ 64 := by
    simp only [List.length_append, List.length_map]
    exact hlen
  obtain ⟨hev2, hsorted2, hnd2, hmem2, _⟩ := totals_summary _ _ hT2 hl2
  refine ⟨filterRun (worldRuntime fuel) (measureCountAdapter worldHeap hs.length)
      (some (measureCountFinalizer worldHeap hs.length)) (worldRuntime fuel).Pipe
      (NewWriter (worldRuntime fuel)) (NewReader (worldRuntime fuel)),
    sortStrings (totalsAfter ∅ ms1).keys,
    sortStrings (totalsAfter (totalsAfter ∅ ms1) ms2).keys, rfl, ?_, ?_, hmem2, hsorted2,
    hnd2⟩
  · rw [key1, ← hev1]
    simp
  · rw [key1]
    simp only []
    rw [key2, ← hev2]

/-- Witness for C19: the stream a, a followed by the stream a, b, with fuel 3. -/
theorem measureCountFilter_counter_is_shared_witness :
    ∃ (run : FilterFn World) (ks1 ks2 : List String),
      NewMeasureCountFilter (worldRuntime 3) worldHeap
          ⟨[(⟨"a", [], [], 1⟩ : Measure), ⟨"a", [], [], 2⟩].map ReadResult.record, [], []⟩
        = (Res.ret (some run, none),
            ⟨[(⟨"a", [], [], 1⟩ : Measure), ⟨"a", [], [], 2⟩].map ReadResult.record,
              [] ++ [∅], []⟩) ∧
      (run worldFeedback scriptedReader
          ⟨[(⟨"a", [], [], 1⟩ : Measure), ⟨"a", [], [], 2⟩].map ReadResult.record,
            [] ++ [∅], []⟩).2.trace
        = [Event.pipe, Event.go]
            ++ [(⟨"a", [], [], 1⟩ : Measure), ⟨"a", [], [], 2⟩].map Event.write
            ++ ks1.map (totalOf
                ([(⟨"a", [], [], 1⟩ : Measure), ⟨"a", [], [], 2⟩].map Measure.Name))
            ++ [Event.pipeClose] ∧
      (run worldFeedback scriptedReader
          ⟨[(⟨"a", [], [], 3⟩ : Measure), ⟨"b", [], [], 4⟩].map ReadResult.record,
            (run worldFeedback scriptedReader
              ⟨[(⟨"a", [], [], 1⟩ : Measure), ⟨"a", [], [], 2⟩].map ReadResult.record,
                [] ++ [∅], []⟩).2.maps,
            (run worldFeedback scriptedReader
              ⟨[(⟨"a", [], [], 1⟩ : Measure), ⟨"a", [], [], 2⟩].map ReadResult.record,
                [] ++ [∅], []⟩).2.trace⟩).2.trace
        = (run worldFeedback scriptedReader
              ⟨[(⟨"a", [], [], 1⟩ : Measure), ⟨"a", [], [], 2⟩].map ReadResult.record,
                [] ++ [∅], []⟩).2.trace
            ++ [Event.pipe, Event.go]
            ++ [(⟨"a", [], [], 3⟩ : Measure), ⟨"b", [], [], 4⟩].map Event.write
            ++ ks2.map (totalOf
                ([(⟨"a", [], [], 1⟩ : Measure), ⟨"a", [], [], 2⟩].map Measure.Name
                  ++ [(⟨"a", [], [], 3⟩ : Measure), ⟨"b", [], [], 4⟩].map Measure.Name))
            ++ [Event.pipeClose] ∧
      (∀ k : String, k ∈ ks2 ↔
        k ∈ [(⟨"a", [], [], 1⟩ : Measure), ⟨"a", [], [], 2⟩].map Measure.Name
          ++ [(⟨"a", [], [], 3⟩ : Measure), ⟨"b", [], [], 4⟩].map Measure.Name) ∧
      List.Sorted stringLE ks2 ∧ ks2.Nodup :=
  measureCountFilter_counter_is_shared 3 [⟨"a", [], [], 1⟩, ⟨"a", [], [], 2⟩]
    [⟨"a", [], [], 3⟩, ⟨"b", [], [], 4⟩] [] (by decide) (by decide) (by decide)

/-! ### Merged input -/

theorem mergedInputDrain_world (rs : List ReadResult) :
    ∀ (fuel : Nat) (maps : List (AList (fun _ : String => Nat))) (tr : Trace),
      rs.length < fuel →
      mergedInputDrain worldFeedback scriptedReader worldChan fuel ⟨rs, maps, tr⟩
        = (Res.ret (), ⟨[], maps, tr ++ (rs.map drainEvents).flatten⟩) := by
  induction rs with
  | nil =>
    intro fuel maps tr h
    cases fuel with
    | zero => exact absurd h (Nat.lt_irrefl 0)
    | succ n =>
      rw [List.map_nil, List.flatten_nil, List.append_nil]
      rfl
  | cons x rest ih =>
    intro fuel maps tr h
    cases fuel with
    | zero => exact absurd h (Nat.not_lt_zero _)
    | succ n =>
      have hn : rest.length < n := by
        simp only [List.length_cons] at h
        omega
      have hrw : tr ++ ((x :: rest).map drainEvents).flatten
          = (tr ++ drainEvents x) ++ (rest.map drainEvents).flatten := by simp
      rw [hrw, ← ih n maps (tr ++ drainEvents x) hn]
      cases x with
      | record m => rfl
      | fail msg =>
        have h2 : tr ++ drainEvents (ReadResult.fail msg)
            = (tr ++ [Event.feedback "error on reading measure %v"
                [Arg.error (Error.New msg)]]) ++ [Event.send Measure.zero] := by
          simp [drainEvents]
        rw [h2]
        rfl

/-- Claim C17 (the code at the failing input).  A branch whose reader yields one
non-end-of-stream error and then end-of-stream has no successfully read record, yet its
drain worker forwards one Measure, the zero Measure, to the collection point: the trace
of the worker is the feedback call, the send of the zero Measure, and `wg.Done()`. -/
theorem mergedInput_forwards_after_read_error :
    mergedInputDrainWorker
        ⟨fun n => emitW (Event.wgAdd n), emitW Event.wgDone, emitW Event.wgWait⟩
        worldFeedback scriptedReader worldChan 2 ⟨[ReadResult.fail "boom"], [], []⟩
      = (Res.ret (),
          ⟨[], [],
            [Event.feedback "error on reading measure %v" [Arg.error (Error.New "boom")],
             Event.send Measure.zero, Event.wgDone]⟩) :=
  rfl

/-! ### Codec round trip -/

theorem writeAll_wire (ms : List Measure) :
    ∀ buf : List Measure,
      writeAll wireWriter ms ⟨buf, false⟩
        = (Res.ret (ms.map (fun _ => none)), ⟨buf ++ ms, false⟩) := by
  induction ms with
  | nil =>
    intro buf
    simp [writeAll, pure, Go.pure]
  | cons m rest ih =>
    intro buf
    have h1 : writeMeasure wireWriter m ⟨buf, false⟩ = (Res.ret none, ⟨buf ++ [m], false⟩) :=
      rfl
    simp only [writeAll]
    rw [Go.run_bind_ret _ _ _ _ _ h1, Go.run_bind_ret _ _ _ _ _ (ih (buf ++ [m]))]
    simp [pure, Go.pure]

theorem readTimes_wire (ms : List Measure) :
    readTimes wireReader (ms.length + 1) ⟨ms, true⟩
      = (Res.ret (ms.map (fun m => (m, none)) ++ [(Measure.zero, some Error.EOF)]),
          ⟨[], true⟩) := by
  induction ms with
  | nil => rfl
  | cons m rest ih =>
    have h1 : readMeasure wireReader ⟨m :: rest, true⟩
        = (Res.ret (m, none), ⟨rest, true⟩) := rfl
    rw [List.length_cons, readTimes, Go.run_bind_ret _ _ _ _ _ h1,
      Go.run_bind_ret _ _ _ _ _ ih]
    simp [pure, Go.pure]

theorem lockStep_wire (ms : List Measure) :
    lockStep wireWriter wireReader ms ⟨[], false⟩
      = (Res.ret (ms.map (fun m => (m, none))), ⟨[], false⟩) := by
  induction ms with
  | nil => rfl
  | cons m rest ih =>
    have h1 : writeMeasure wireWriter m ⟨[], false⟩ = (Res.ret none, ⟨[m], false⟩) := rfl
    have h2 : readMeasure wireReader ⟨[m], false⟩ = (Res.ret (m, none), ⟨[], false⟩) := rfl
    rw [lockStep, Go.run_bind_ret _ _ _ _ _ h1, Go.run_bind_ret _ _ _ _ _ h2,
      Go.run_bind_ret _ _ _ _ _ ih]
    simp [pure, Go.pure]

/-- Claim C16.  On the stream and codec modelled from the spec: write any finite sequence
`ms` of Measures in order with the MeasureWriter from `NewWriter`, close the write end,
and read with the MeasureReader from `NewReader`, each time into a fresh zero Measure.
Every `Write` returns a nil error; the first `ms.length` reads return, with a nil error,
Measures equal to the written ones in write order, none lost or duplicated, and the next
read returns the end-of-stream error, leaving the Measure zero.  The same holds when
each `Write` is met by a `Read` before the next `Write`. -/
theorem codec_round_trip (ms : List Measure) :
    codecSession wireRuntime ms ⟨[], false⟩
        = (Res.ret (ms.map (fun _ => none),
              ms.map (fun m => (m, none)) ++ [(Measure.zero, some Error.EOF)]),
            ⟨[], true⟩) ∧
    codecSessionLockStep wireRuntime ms ⟨[], false⟩
        = (Res.ret (ms.map (fun m => (m, none)) ++ [(Measure.zero, some Error.EOF)]),
            ⟨[], true⟩) := by
  constructor
  · show (writeAll wireWriter ms >>= fun es =>
        wireClose >>= fun _ => readTimes wireReader (ms.length + 1) >>= fun rs =>
            pure (es, rs)) ⟨[], false⟩ = _
    rw [Go.run_bind_ret _ _ _ _ _ (writeAll_wire ms [])]
    have hc : wireClose ⟨[] ++ ms, false⟩ = (Res.ret none, ⟨ms, true⟩) := by
      simp [wireClose]
    rw [Go.run_bind_ret _ _ _ _ _ hc, Go.run_bind_ret _ _ _ _ _ (readTimes_wire ms)]
    rfl
  · show (lockStep wireWriter wireReader ms >>= fun rs =>
        wireClose >>= fun _ => readMeasure wireReader >>= fun last =>
            pure (rs ++ [last])) ⟨[], false⟩ = _
    rw [Go.run_bind_ret _ _ _ _ _ (lockStep_wire ms)]
    rfl

/-! ### Merged output: a failing output -/

/-- Claim C18 (the code at the failing input).  Two outputs, the first of which returns
an error without reading its stream, and an upstream of one record.  The worker of the
first output reports the failure through feedback ("sink fail") and signals its
completion, but the calling goroutine, having started both workers and read the record,
blocks on the write to the stream of the first output, which nobody reads and nothing
closes: no record is written to the stream of the second output and the merged output
does not return (the loop fuel, 4, is not used up: the one record needs two
iterations). -/
theorem mergedOutput_stalls_on_undrained_output :
    ∃ run : OutputFn World,
      NewMergedOutput (stalledRuntime 4)
          (some [some (worldOutput "o1" (some (Error.New "down"))),
                 some (worldOutput "o2" none)])
        = (some run, none) ∧
      run worldFeedback scriptedReader ⟨[ReadResult.record ⟨"m", [], [], 1⟩], [], []⟩
        = (Res.timeout,
            ⟨[], [],
              [Event.pipe, Event.go, Event.wgAdd 1, Event.pipe, Event.go, Event.wgAdd 1]⟩) ∧
      mergedOutputWorker worldWaitGroup worldFeedback
          (some (worldOutput "o1" (some (Error.New "down")))) scriptedReader ⟨[], [], []⟩
        = (Res.ret (),
            ⟨[], [],
              [Event.call "o1", Event.feedback "sink fail %v" [Arg.error (Error.New "down")],
               Event.wgDone]⟩) :=
  ⟨_, rfl, rfl, rfl⟩

end MStreamer
